import Mathlib

/-!
Shallow embedding of the batch compute engine of the `ai-spreadsheet`
repository (an AI-formula spreadsheet: `lib/types.ts`, `lib/formula.ts`,
`lib/ai.ts`, `lib/store.ts`, `components/ComputeControls.tsx`), together
with theorems settling the specification claims about it.

Conventions of the embedding:
* JS strings are Lean `String`, JS numbers are `ℚ` (the claims never
  exercise float rounding), JS integers used as counters are `Nat`
  (every counter update in the source is `+ 1` or `Math.max(0, x - 1)`,
  which is exactly truncated `Nat` subtraction).
* JS objects used as string-keyed records are association lists; the
  spread update `{...m, [k]: v}` is `aset`, property lookup is `alookup`.
* `null` and `undefined` are collapsed: an absent key is `none` and the
  explicit `null` cell value is `JSValue.nullv`; every code path touched
  by the claims treats the two identically
  (`value === null || value === undefined`, truthiness).
-/

namespace AISheet

/-- Char-list prefix test (used for the JS `String.startsWith`). -/
def charsLead : List Char → List Char → Bool
  | _, [] => true
  | [], _ :: _ => false
  | c :: cs, p :: ps => c == p && charsLead cs ps

/-- JS `s.startsWith(pre)`. -/
def jsStartsWith (s pre : String) : Bool := charsLead s.data pre.data

/-- JS `s.endsWith(suf)`. -/
def jsEndsWith (s suf : String) : Bool := charsLead s.data.reverse suf.data.reverse

/-- JS `s.trim()`: strips leading and trailing whitespace. -/
def jsTrim (s : String) : String :=
  String.mk (((s.data.dropWhile Char.isWhitespace).reverse.dropWhile Char.isWhitespace).reverse)

/-- JS `s.slice(n)` for `0 ≤ n`. -/
def jsDrop (s : String) (n : Nat) : String := String.mk (s.data.drop n)

/-- JS `s.slice(0, s.length - n)` (drop `n` characters from the right). -/
def jsDropRight (s : String) (n : Nat) : String :=
  String.mk (s.data.take (s.data.length - n))

/-- Cell computation states, from `CellState` in `lib/types.ts`. -/
inductive CellState where
  | idle
  | queued
  | running
  | done
  | error
deriving Repr, DecidableEq

/-- The per-cell metadata record `{state, error?}` stored in `Row.meta`
(`lib/types.ts`). -/
structure CellMeta where
  state : CellState
  error : Option String
deriving Repr, DecidableEq

/-- A JS cell value: `string | number | null` (`Row.values` in
`lib/types.ts`); an absent key (undefined) is modelled by `Option`. -/
inductive JSValue where
  | str (s : String)
  | num (q : ℚ)
  | nullv
deriving Repr, DecidableEq

/-- Association-list lookup, modelling JS object property access. -/
def alookup {α : Type} : List (String × α) → String → Option α
  | [], _ => none
  | (k', v) :: rest, k => if k' = k then some v else alookup rest k

/-- Association-list update, modelling the JS spread `{...m, [k]: v}`:
the binding for `k` is replaced (or appended if absent). -/
def aset {α : Type} : List (String × α) → String → α → List (String × α)
  | [], k, v => [(k, v)]
  | (k', v') :: rest, k, v =>
      if k' = k then (k, v) :: rest else (k', v') :: aset rest k v

theorem alookup_aset {α : Type} (l : List (String × α)) (k : String) (v : α) :
    alookup (aset l k v) k = some v := by
  induction l with
  | nil => simp [aset, alookup]
  | cons h t ih =>
      obtain ⟨k', v'⟩ := h
      by_cases hk : k' = k
      · simp [aset, alookup, hk]
      · simp [aset, alookup, hk, ih]

theorem alookup_aset_ne {α : Type} (l : List (String × α)) (k k' : String) (v : α)
    (h : k ≠ k') : alookup (aset l k v) k' = alookup l k' := by
  induction l with
  | nil => simp [aset, alookup, h]
  | cons hd t ih =>
      obtain ⟨k0, v0⟩ := hd
      by_cases hk : k0 = k
      · subst hk
        simp [aset, alookup, h]
      · simp [aset, alookup, hk, ih]

/-- A sheet row: `{id, values, meta?}` from `lib/types.ts`. -/
structure Row where
  id : String
  values : List (String × JSValue)
  meta : List (String × CellMeta)
deriving Repr, DecidableEq

/-- The per-column aggregate `ComputeProgress` record from `lib/store.ts`. -/
structure ComputeProgress where
  total : Nat
  queued : Nat
  running : Nat
  done : Nat
  failed : Nat
deriving Repr, DecidableEq

/-- A unit of batch work, `ComputeTask` from `lib/types.ts`. -/
structure ComputeTask where
  rowId : String
  columnId : String
  prompt : String
  modelId : String
  temperature : ℚ
  maxTokens : ℚ
deriving Repr, DecidableEq

/-- The uniform result shape `ComputeResult` from `lib/types.ts`; on
success the source object simply has no `error` property (`none` here). -/
structure ComputeResult where
  rowId : String
  columnId : String
  value : String
  error : Option String
deriving Repr, DecidableEq

/-- Function updateCellState from `lib/store.ts` (rows part): maps over the rows
and, for the row with the given id, replaces the whole meta entry of the
column with `{state, error}` (spread `{...row.meta, [columnId]: {state, error}}`).
The `error` argument is `none` when the source call omits it. -/
def updateCellStateRows (rows : List Row) (rowId colId : String)
    (st : CellState) (err : Option String) : List Row :=
  rows.map fun row =>
    if row.id = rowId then { row with meta := aset row.meta colId ⟨st, err⟩ } else row

/-- Function updateCell from `lib/store.ts` (rows part): replaces the value of
the given cell, leaving `meta` untouched. -/
def updateCellRows (rows : List Row) (rowId colId : String) (v : JSValue) : List Row :=
  rows.map fun row =>
    if row.id = rowId then { row with values := aset row.values colId v } else row

/-- Reads the cell meta for `(rowId, colId)` of the first row with the
given id: `rows.find(r => r.id === rowId)?.meta?.[columnId]`. -/
def metaOf : List Row → String → String → Option CellMeta
  | [], _, _ => none
  | r :: rest, rowId, colId =>
      if r.id = rowId then alookup r.meta colId else metaOf rest rowId colId

/-- Reads the cell value for `(rowId, colId)` of the first row with the
given id: `rows.find(r => r.id === rowId)?.values[columnId]`. -/
def valueOf : List Row → String → String → Option JSValue
  | [], _, _ => none
  | r :: rest, rowId, colId =>
      if r.id = rowId then alookup r.values colId else valueOf rest rowId colId

theorem metaOf_updateCellStateRows_self (rows : List Row) (rowId colId : String)
    (st : CellState) (err : Option String) (hmem : ∃ r ∈ rows, r.id = rowId) :
    metaOf (updateCellStateRows rows rowId colId st err) rowId colId = some ⟨st, err⟩ := by
  induction rows with
  | nil => simp at hmem
  | cons hd t ih =>
      by_cases h : hd.id = rowId
      · simp [updateCellStateRows, metaOf, h, alookup_aset]
      · have hmem' : ∃ r ∈ t, r.id = rowId := by
          obtain ⟨r, hr, hid⟩ := hmem
          rcases List.mem_cons.mp hr with rfl | hr2
          · exact absurd hid h
          · exact ⟨r, hr2, hid⟩
        have := ih hmem'
        simpa [updateCellStateRows, metaOf, h] using this

theorem metaOf_updateCellStateRows_ne (rows : List Row) (rowId colId : String)
    (st : CellState) (err : Option String) (rowId' colId' : String)
    (h : rowId' ≠ rowId) :
    metaOf (updateCellStateRows rows rowId colId st err) rowId' colId' =
      metaOf rows rowId' colId' := by
  induction rows with
  | nil => rfl
  | cons hd t ih =>
      by_cases hh : hd.id = rowId
      · rw [show updateCellStateRows (hd :: t) rowId colId st err =
            ({ hd with meta := aset hd.meta colId ⟨st, err⟩ } : Row)
              :: updateCellStateRows t rowId colId st err from by
              simp [updateCellStateRows, hh]]
        have h1 : ¬ ({ hd with meta := aset hd.meta colId ⟨st, err⟩ } : Row).id = rowId' := by
          show ¬ hd.id = rowId'
          rw [hh]; exact fun hc => h hc.symm
        have h2 : ¬ hd.id = rowId' := by rw [hh]; exact fun hc => h hc.symm
        simp [metaOf, h1, h2, ih]
      · rw [show updateCellStateRows (hd :: t) rowId colId st err =
            hd :: updateCellStateRows t rowId colId st err from by
              simp [updateCellStateRows, hh]]
        by_cases hh' : hd.id = rowId'
        · simp [metaOf, hh']
        · simp [metaOf, hh', ih]

theorem metaOf_updateCellRows (rows : List Row) (rowId colId : String) (v : JSValue)
    (rowId' colId' : String) :
    metaOf (updateCellRows rows rowId colId v) rowId' colId' = metaOf rows rowId' colId' := by
  induction rows with
  | nil => rfl
  | cons hd t ih =>
      by_cases hh : hd.id = rowId
      · rw [show updateCellRows (hd :: t) rowId colId v =
            ({ hd with values := aset hd.values colId v } : Row)
              :: updateCellRows t rowId colId v from by
              simp [updateCellRows, hh]]
        by_cases hh' : hd.id = rowId'
        · have h1 : ({ hd with values := aset hd.values colId v } : Row).id = rowId' := hh'
          simp [metaOf, h1, hh']
        · have h1 : ¬ ({ hd with values := aset hd.values colId v } : Row).id = rowId' := hh'
          simp [metaOf, h1, hh', ih]
      · rw [show updateCellRows (hd :: t) rowId colId v =
            hd :: updateCellRows t rowId colId v from by
              simp [updateCellRows, hh]]
        by_cases hh' : hd.id = rowId'
        · simp [metaOf, hh']
        · simp [metaOf, hh', ih]

/-- Claim C9. The function updateCellState replaces the cell's whole meta entry for the
target `(row, column)` with `{state, error}`: whatever meta (in particular
whatever error message from a previous failed attempt) was stored there
before, the entry afterwards is exactly `⟨st, err⟩`, so a call that omits
the error argument (`err = none`, as on a successful result moving the
cell to `done`) leaves the stored error `undefined`. -/
theorem C9_updateCellState_replaces_meta (rows : List Row) (rowId colId : String)
    (st : CellState) (err : Option String) (hmem : ∃ r ∈ rows, r.id = rowId) :
    metaOf (updateCellStateRows rows rowId colId st err) rowId colId = some ⟨st, err⟩ :=
  metaOf_updateCellStateRows_self rows rowId colId st err hmem

/-- Witness for C9 at a concrete row whose cell previously held an error
message: after `updateCellState(r0, c, done)` (no error argument) the meta
entry is `{state: done, error: undefined}`. -/
theorem C9_witness :
    metaOf (updateCellStateRows
        [(⟨"r0", [], [("c", ⟨CellState.error, some "HTTP 500"⟩)]⟩ : Row)]
        "r0" "c" CellState.done none) "r0" "c" = some ⟨CellState.done, none⟩ :=
  C9_updateCellState_replaces_meta _ "r0" "c" CellState.done none
    ⟨⟨"r0", [], [("c", ⟨CellState.error, some "HTTP 500"⟩)]⟩, by simp, rfl⟩

/-- The derived progress percentage from `ComputeControls.tsx`:
`if (progress.total === 0) return 0; return Math.round(((done + failed) / total) * 100)`. -/
def progressPercent (p : ComputeProgress) : ℤ :=
  if p.total = 0 then 0
  else round ((((p.done : ℚ) + (p.failed : ℚ)) / (p.total : ℚ)) * 100)

/-- Claim C10. The derived progress percentage is defined for every
`ComputeProgress` value: when `total = 0` it is `0` (the division is never
reached), and otherwise it equals `round(100 * (done + failed) / total)`. -/
theorem C10_progressPercent_total (p : ComputeProgress) :
    progressPercent p =
      if p.total = 0 then 0
      else round ((100 : ℚ) * ((p.done : ℚ) + (p.failed : ℚ)) / (p.total : ℚ)) := by
  unfold progressPercent
  by_cases h : p.total = 0
  · simp [h]
  · have : (((p.done : ℚ) + (p.failed : ℚ)) / (p.total : ℚ)) * 100 =
        (100 : ℚ) * ((p.done : ℚ) + (p.failed : ℚ)) / (p.total : ℚ) := by
      ring
    simp [h, this]

/-- Witness instance of the C10 formula at a concrete progress value. -/
theorem C10_witness :
    progressPercent ⟨4, 0, 0, 1, 1⟩ =
      round ((100 : ℚ) * (((⟨4, 0, 0, 1, 1⟩ : ComputeProgress).done : ℚ) +
        ((⟨4, 0, 0, 1, 1⟩ : ComputeProgress).failed : ℚ)) /
        ((⟨4, 0, 0, 1, 1⟩ : ComputeProgress).total : ℚ)) := by
  have h := C10_progressPercent_total ⟨4, 0, 0, 1, 1⟩
  simpa using h

/-- JSON values, for the options object of an `=AI(...)` formula. -/
inductive Json where
  | jnull
  | jbool (b : Bool)
  | jnum (q : ℚ)
  | jstr (s : String)
  | jarr (xs : List Json)
  | jobj (fields : List (String × Json))
deriving Repr

/-- Hexadecimal digit value, for JSON `\u` escapes. -/
def hexVal (c : Char) : Option Nat :=
  if c.isDigit then some (c.toNat - '0'.toNat)
  else if 'a' ≤ c ∧ c ≤ 'f' then some (c.toNat - 'a'.toNat + 10)
  else if 'A' ≤ c ∧ c ≤ 'F' then some (c.toNat - 'A'.toNat + 10)
  else none

/-- JSON whitespace skipping. -/
def skipWs (s : List Char) : List Char :=
  s.dropWhile fun c => c == ' ' || c == '\n' || c == '\t' || c == '\r'

/-- Body of a JSON string literal: consumes characters after the opening
quote up to the closing quote, decoding escapes (fuel-bounded; any fuel
above the list length is enough). -/
def jsonStringRest : Nat → List Char → Option (List Char × List Char)
  | 0, _ => none
  | _ + 1, [] => none
  | _ + 1, '"' :: rest => some ([], rest)
  | fuel + 1, '\\' :: rest =>
      match rest with
      | '"' :: r => (jsonStringRest fuel r).map fun p => ('"' :: p.1, p.2)
      | '\\' :: r => (jsonStringRest fuel r).map fun p => ('\\' :: p.1, p.2)
      | '/' :: r => (jsonStringRest fuel r).map fun p => ('/' :: p.1, p.2)
      | 'n' :: r => (jsonStringRest fuel r).map fun p => ('\n' :: p.1, p.2)
      | 't' :: r => (jsonStringRest fuel r).map fun p => ('\t' :: p.1, p.2)
      | 'r' :: r => (jsonStringRest fuel r).map fun p => ('\r' :: p.1, p.2)
      | 'b' :: r => (jsonStringRest fuel r).map fun p => ('\x08' :: p.1, p.2)
      | 'f' :: r => (jsonStringRest fuel r).map fun p => ('\x0c' :: p.1, p.2)
      | 'u' :: h1 :: h2 :: h3 :: h4 :: r =>
          match hexVal h1, hexVal h2, hexVal h3, hexVal h4 with
          | some a, some b, some c, some d =>
              (jsonStringRest fuel r).map fun p =>
                (Char.ofNat (((a * 16 + b) * 16 + c) * 16 + d) :: p.1, p.2)
          | _, _, _, _ => none
      | _ => none
  | fuel + 1, c :: rest => (jsonStringRest fuel rest).map fun p => (c :: p.1, p.2)

/-- Digit run to a natural number. -/
def digitsToNat (ds : List Char) : Nat :=
  ds.foldl (fun acc c => acc * 10 + (c.toNat - '0'.toNat)) 0

/-- Exponent digits (after `e`/`E`) with optional sign. -/
def jsonExpTail (s : List Char) : Option (ℤ × List Char) :=
  let sgn : ℤ := match s with
    | '-' :: _ => -1
    | _ => 1
  let s1 := match s with
    | '+' :: r => r
    | '-' :: r => r
    | _ => s
  let ds := s1.takeWhile Char.isDigit
  if ds.isEmpty then none else some (sgn * (digitsToNat ds : ℤ), s1.drop ds.length)

/-- Optional exponent part of a JSON number (exponent `0` when absent). -/
def jsonExpPart (s : List Char) : Option (ℤ × List Char) :=
  match s with
  | 'e' :: r => jsonExpTail r
  | 'E' :: r => jsonExpTail r
  | _ => some (0, s)

/-- A JSON number literal as an exact rational. -/
def jsonNumber (s : List Char) : Option (ℚ × List Char) :=
  let neg : Bool := match s with
    | '-' :: _ => true
    | _ => false
  let s1 := match s with
    | '-' :: r => r
    | _ => s
  let intDs := s1.takeWhile Char.isDigit
  if intDs.isEmpty then none
  else
    let s2 := s1.drop intDs.length
    let hasFrac : Bool := match s2 with
      | '.' :: _ => true
      | _ => false
    let fracDs := (s2.drop 1).takeWhile Char.isDigit
    let s3 := if hasFrac then (s2.drop 1).drop fracDs.length else s2
    if hasFrac && fracDs.isEmpty then none
    else
      match jsonExpPart s3 with
      | none => none
      | some (e, s4) =>
          let mag : ℚ := (digitsToNat intDs : ℚ) +
            (if hasFrac then (digitsToNat fracDs : ℚ) / ((10 : ℚ) ^ fracDs.length) else 0)
          some ((if neg then -mag else mag) * (10 : ℚ) ^ e, s4)

mutual

/-- Models the JS builtin `JSON.parse` (value production). Fuel-bounded
recursive descent; the claims never exercise this path (none of their
formulas carry a JSON options object), it is embedded for completeness. -/
def jsonValue : Nat → List Char → Option (Json × List Char)
  | 0, _ => none
  | fuel + 1, s =>
      match skipWs s with
      | '"' :: rest =>
          (jsonStringRest (rest.length + 1) rest).map fun p => (Json.jstr (String.mk p.1), p.2)
      | '\x7b' :: rest => (jsonMembers fuel rest).map fun p => (Json.jobj p.1, p.2)
      | '[' :: rest => (jsonElems fuel rest).map fun p => (Json.jarr p.1, p.2)
      | 't' :: 'r' :: 'u' :: 'e' :: rest => some (Json.jbool true, rest)
      | 'f' :: 'a' :: 'l' :: 's' :: 'e' :: rest => some (Json.jbool false, rest)
      | 'n' :: 'u' :: 'l' :: 'l' :: rest => some (Json.jnull, rest)
      | other => (jsonNumber other).map fun p => (Json.jnum p.1, p.2)

/-- Object members after `\x7b` (empty object or member list). -/
def jsonMembers : Nat → List Char → Option (List (String × Json) × List Char)
  | 0, _ => none
  | fuel + 1, s =>
      match skipWs s with
      | '\x7d' :: rest => some ([], rest)
      | _ => jsonMembersLoop fuel (skipWs s)

/-- Non-empty member list of a JSON object. -/
def jsonMembersLoop : Nat → List Char → Option (List (String × Json) × List Char)
  | 0, _ => none
  | fuel + 1, s =>
      match skipWs s with
      | '"' :: rest =>
          match jsonStringRest (rest.length + 1) rest with
          | none => none
          | some (key, r1) =>
              match skipWs r1 with
              | ':' :: r2 =>
                  match jsonValue fuel r2 with
                  | none => none
                  | some (v, r3) =>
                      match skipWs r3 with
                      | ',' :: r4 =>
                          (jsonMembersLoop fuel r4).map fun p =>
                            ((String.mk key, v) :: p.1, p.2)
                      | '\x7d' :: r4 => some ([(String.mk key, v)], r4)
                      | _ => none
              | _ => none
      | _ => none

/-- Array elements after `[` (empty array or element list). -/
def jsonElems : Nat → List Char → Option (List Json × List Char)
  | 0, _ => none
  | fuel + 1, s =>
      match skipWs s with
      | ']' :: rest => some ([], rest)
      | _ => jsonElemsLoop fuel s

/-- Non-empty element list of a JSON array. -/
def jsonElemsLoop : Nat → List Char → Option (List Json × List Char)
  | 0, _ => none
  | fuel + 1, s =>
      match jsonValue fuel s with
      | none => none
      | some (v, r1) =>
          match skipWs r1 with
          | ',' :: r2 => (jsonElemsLoop fuel r2).map fun p => (v :: p.1, p.2)
          | ']' :: r2 => some ([v], r2)
          | _ => none

end

/-- Models the JS builtin `JSON.parse` on a whole string: `none` where
`JSON.parse` would throw. -/
def jsonParse (s : String) : Option Json :=
  match jsonValue (s.length + 1) s.data with
  | none => none
  | some (j, rest) => if (skipWs rest).isEmpty then some j else none

/-- The validated per-call options of a formula (`ParsedFormula.options`
in `lib/types.ts`). -/
structure FormulaOptions where
  model : Option String
  temperature : Option ℚ
  maxTokens : Option ℚ
deriving Repr, DecidableEq

/-- The `ParsedFormula` record from `lib/types.ts`. -/
structure ParsedFormula where
  template : String
  options : Option FormulaOptions
deriving Repr, DecidableEq

/-- JS property access `j.k` on a parsed JSON value (undefined unless an
object with that key). -/
def jget : Json → String → Option Json
  | Json.jobj fields, k => alookup fields k
  | _, _ => none

/-- Option validation from `parseFormulaContent` (`lib/formula.ts` lines
100-117): `typeof`-checked fields, temperature clamped to `[0, 1]`,
`maxTokens` floored at `1`, and `undefined` when no known key validates. -/
def validateOptions (j : Json) : Option FormulaOptions :=
  let model := match jget j "model" with
    | some (Json.jstr s) => some s
    | _ => none
  let temperature := match jget j "temperature" with
    | some (Json.jnum q) => some (max 0 (min 1 q))
    | _ => none
  let maxTokens := match jget j "maxTokens" with
    | some (Json.jnum q) => some (max 1 q)
    | _ => none
  if model = none ∧ temperature = none ∧ maxTokens = none then none
  else some ⟨model, temperature, maxTokens⟩

/-- The quote-scanning loop of `parseFormulaContent` (`lib/formula.ts`
lines 50-69): index of the first unescaped `"`, scanning char by char and
tracking the backslash-escape flag `inEscape`. -/
def findEndQuote : List Char → Bool → Option Nat
  | [], _ => none
  | c :: rest, esc =>
      if esc then (findEndQuote rest false).map (· + 1)
      else if c = '\\' then (findEndQuote rest true).map (· + 1)
      else if c = '"' then some 0
      else (findEndQuote rest false).map (· + 1)

/-- The result union of the formula parser, `ParsedFormula | {error: string}`
in `lib/formula.ts`. -/
inductive FormulaOut where
  | ok (p : ParsedFormula)
  | err (msg : String)
deriving Repr, DecidableEq

/-- The parsed template of a successful parse, `none` on error. -/
def FormulaOut.template? : FormulaOut → Option String
  | FormulaOut.ok p => some p.template
  | FormulaOut.err _ => none

/-- Whether the parse failed (`'error' in parsed` in the source). -/
def FormulaOut.isErr : FormulaOut → Bool
  | FormulaOut.ok _ => false
  | FormulaOut.err _ => true

/-- Function parseFormulaContent from `lib/formula.ts`: template extraction
between the quotes (`content.slice(1, endQuoteIndex)`, the scan offset
by one since it starts at index 1) and optional JSON options after a
comma. -/
def parseFormulaContent (content : String) : FormulaOut :=
  if jsTrim content = "" then FormulaOut.err "Formula cannot be empty"
  else if ¬ jsStartsWith content "\"" then
    FormulaOut.err "Formula template must be a quoted string"
  else
    match findEndQuote (content.data.drop 1) false with
    | none => FormulaOut.err "Unclosed template string"
    | some k =>
        let template := String.mk ((content.data.drop 1).take k)
        let remaining := jsTrim (String.mk ((content.data.drop 1).drop (k + 1)))
        if remaining = "" then FormulaOut.ok ⟨template, none⟩
        else if ¬ jsStartsWith remaining "," then
          FormulaOut.err "Expected comma after template string"
        else
          let optionsStr := jsTrim (jsDrop remaining 1)
          if optionsStr = "" then FormulaOut.ok ⟨template, none⟩
          else
            match jsonParse optionsStr with
            | none => FormulaOut.err "Invalid JSON options"
            | some j => FormulaOut.ok ⟨template, validateOptions j⟩

/-- Function parseFormula from `lib/formula.ts`: prefix/suffix checks, then the
content between `=AI(` and the final `)` (`formula.slice(4, -1)`). -/
def parseFormula (formula : String) : FormulaOut :=
  if ¬ jsStartsWith formula "=AI(" then FormulaOut.err "Formula must start with =AI("
  else if ¬ jsEndsWith formula ")" then FormulaOut.err "Formula must end with )"
  else parseFormulaContent (jsDropRight (jsDrop formula 4) 1)

/-- Claim C5, counterexample. On the formula `=AI("a\"b")` the parser does
succeed and the escaped quote does not terminate the template, but the
returned template is the four-character string `a\"b` (the backslash is
kept verbatim, `content.slice(1, endQuoteIndex)` performs no unescaping),
not the three-character string `a"b` asserted by the claim. -/
theorem C5_counterexample :
    (parseFormula "=AI(\"a\\\"b\")").template? = some "a\\\"b" ∧
      some ("a\\\"b" : String) ≠ some ("a\"b" : String) := by
  refine ⟨by decide, by decide⟩

/-- Claim C5, amended. The parser scans the quoted template char by char
tracking a backslash-escape flag, so the backslash-escaped quote inside
`=AI("a\"b")` does not terminate the template; the parse succeeds and the
template is the four-character string `a\"b` — escape flag honoured for
quote matching, but the backslash itself retained (no unescaping). -/
theorem C5_theorem :
    parseFormula "=AI(\"a\\\"b\")" = FormulaOut.ok ⟨"a\\\"b", none⟩ ∧
      ("a\\\"b" : String).data = ['a', '\\', '"', 'b'] := by
  refine ⟨by decide, by decide⟩

/-- The per-column AI overrides (`Column.ai` in `lib/types.ts`). -/
structure AIConfig where
  modelId : Option String
  temperature : Option ℚ
  maxTokens : Option ℚ
deriving Repr, DecidableEq

/-- Column kinds from `lib/types.ts`. -/
inductive ColumnKind where
  | text
  | number
  | ai
deriving Repr, DecidableEq

/-- A sheet column (`Column` in `lib/types.ts`). -/
structure Column where
  id : String
  name : String
  kind : ColumnKind
  formula : Option String
  ai : Option AIConfig
deriving Repr, DecidableEq

/-- JS `String(value)` for cell values. Integers are rendered exactly;
non-integer number formatting is approximated by a fraction literal (no
claim depends on number formatting). -/
def jsValueToString : JSValue → String
  | JSValue.str s => s
  | JSValue.num q =>
      if q.den = 1 then
        (if q.num < 0 then "-" ++ toString q.num.natAbs else toString q.num.natAbs)
      else toString q.num ++ "/" ++ toString q.den
  | JSValue.nullv => "null"

/-- The sentinel `\x00ESCAPED_BRACE\x00` used by `renderTemplate`. -/
def escSentinel : List Char := '\x00' :: ("ESCAPED_BRACE".data ++ ['\x00'])

/-- First regex pass of `renderTemplate` (`ESCAPED_BRACE_PATTERN`): every
literal `\{{` becomes the sentinel. -/
def replaceEscapedBraces : List Char → List Char
  | '\\' :: '\x7b' :: '\x7b' :: rest => escSentinel ++ replaceEscapedBraces rest
  | c :: rest => c :: replaceEscapedBraces rest
  | [] => []

/-- The replacement callback of the placeholder pass: trimmed-name column
lookup (last column wins in the name map, as in the JS `Map` built from
the column list); missing column substitutes empty and warns with the raw
name, `null`/absent cell values substitute empty. -/
def placeholderSubst (colsByName : List (String × Column)) (row : Row) (raw : List Char) :
    List Char × List String :=
  match alookup colsByName (jsTrim (String.mk raw)) with
  | none => ([], ["Column \"" ++ String.mk raw ++ "\" not found"])
  | some col =>
      match alookup row.values col.id with
      | none => ([], [])
      | some JSValue.nullv => ([], [])
      | some v => ((jsValueToString v).data, [])

/-- Second regex pass of `renderTemplate` (`PLACEHOLDER_PATTERN`, the
global regex `\{\{([^}]+)\}\}`): a match is `{{`, a non-empty `}`-free
name, then `}}`; on a failed match attempt the scan advances one
character, exactly like the JS regex engine; warnings accumulate in match
order. -/
def substPHGo (colsByName : List (String × Column)) (row : Row) :
    Nat → List Char → List Char × List String
  | 0, s => (s, [])
  | fuel + 1, s =>
      match s with
      | '\x7b' :: '\x7b' :: rest =>
          let w := rest.takeWhile (fun c => c ≠ '\x7d')
          if w.isEmpty then
            let p := substPHGo colsByName row fuel ('\x7b' :: rest)
            ('\x7b' :: p.1, p.2)
          else
            match rest.drop w.length with
            | '\x7d' :: '\x7d' :: after =>
                let q := placeholderSubst colsByName row w
                let p := substPHGo colsByName row fuel after
                (q.1 ++ p.1, q.2 ++ p.2)
            | _ =>
                let p := substPHGo colsByName row fuel ('\x7b' :: rest)
                ('\x7b' :: p.1, p.2)
      | c :: rest =>
          let p := substPHGo colsByName row fuel rest
          (c :: p.1, p.2)
      | [] => ([], [])

/-- The placeholder pass on a whole character list (every recursive step
of the scan consumes at least one character, so `length + 1` fuel always
suffices and the fuel-exhaustion branch is unreachable). -/
def substPH (colsByName : List (String × Column)) (row : Row) (s : List Char) :
    List Char × List String :=
  substPHGo colsByName row (s.length + 1) s

/-- Fuel-bounded body of the third regex pass of `renderTemplate`: each
sentinel occurrence becomes a single literal `{`. -/
def restoreEscGo : Nat → List Char → List Char
  | 0, s => s
  | fuel + 1, s =>
      if escSentinel.isPrefixOf s then
        '\x7b' :: restoreEscGo fuel (s.drop escSentinel.length)
      else
        match s with
        | [] => []
        | c :: rest => c :: restoreEscGo fuel rest

/-- Third regex pass of `renderTemplate` (sentinel restoration). -/
def restoreEscapedBraces (s : List Char) : List Char := restoreEscGo (s.length + 1) s

/-- Function renderTemplate from `lib/formula.ts`: escaped-brace pass,
placeholder substitution, sentinel restoration, then the truncation guard
`maxInputChars && maxInputChars > 0 && processed.length > maxInputChars`
(`none`/`0` meaning unlimited). Returns `(rendered, warnings)`. -/
def renderTemplate (template : String) (row : Row) (colsByName : List (String × Column))
    (maxInputChars : Option Nat) : String × List String :=
  let step1 := replaceEscapedBraces template.data
  let p := substPH colsByName row step1
  let step3 := restoreEscapedBraces p.1
  match maxInputChars with
  | some m =>
      if 0 < m ∧ m < step3.length then
        (String.mk (step3.take m), p.2 ++ ["Input truncated to " ++ toString m ++ " characters"])
      else (String.mk step3, p.2)
  | none => (String.mk step3, p.2)

/-- Global settings (`Settings` in `lib/types.ts`). -/
structure Settings where
  defaultModelId : String
  defaultTemperature : ℚ
  defaultMaxTokens : ℚ
  concurrency : Nat
  maxInputChars : Option Nat
deriving Repr, DecidableEq

/-- A sheet (`Sheet` in `lib/types.ts`; timestamps and version are
irrelevant to every claim and omitted). -/
structure Sheet where
  id : String
  name : String
  columns : List Column
  rows : List Row
deriving Repr, DecidableEq

/-- The slice of the Zustand store state (`AppState` in `lib/store.ts`)
that the compute claims touch. The abort controller is modelled by its
presence (`hasController`); the signal's aborted flag lives in the run
model below. -/
structure AppState where
  currentSheet : Option Sheet
  settings : Settings
  isComputing : Bool
  computeProgress : List (String × ComputeProgress)
  hasController : Bool
deriving Repr, DecidableEq

/-- JS `a || b` where `a` is an optional string (both `undefined` and the
empty string fall through to `b`). -/
def jsOrString (a : Option String) (b : String) : String :=
  match a with
  | some s => if s = "" then b else s
  | none => b

/-- Reads `row.meta?.[columnId]?.state`. -/
def metaStateB (row : Row) (colId : String) : Option CellState :=
  (alookup row.meta colId).map CellMeta.state

/-- JS truthiness of a cell value (`string | number | null | undefined`):
empty string, `0`, `null` and `undefined` are falsy. -/
def truthyValue : Option JSValue → Bool
  | none => false
  | some JSValue.nullv => false
  | some (JSValue.str s) => decide (s ≠ "")
  | some (JSValue.num q) => decide (q ≠ 0)

/-- The `toProcess` count from `startCompute` (`lib/store.ts` lines
367-379): `forceAll` counts all rows, otherwise the rows that are not
(`done` with a truthy stored value); in `retry` mode the `error` rows are
counted instead. -/
def computeToProcess (rows : List Row) (colId : String) (retry forceAll : Bool) : Nat :=
  let unprocessedCount :=
    if forceAll then rows.length
    else (rows.filter fun row => decide (¬ (metaStateB row colId = some CellState.done ∧
      truthyValue (alookup row.values colId) = true))).length
  let failedCount :=
    (rows.filter fun row => decide (metaStateB row colId = some CellState.error)).length
  if retry then failedCount else unprocessedCount

/-- The row selection of `startCompute` (`lib/store.ts` lines 411-420):
`retry` picks the `error` rows, `forceAll` picks everything, otherwise
rows that are not (`done` with a truthy value) are picked. -/
def selectRows (rows : List Row) (colId : String) (retry forceAll : Bool) : List Row :=
  if retry then rows.filter fun row => decide (metaStateB row colId = some CellState.error)
  else if forceAll then rows
  else rows.filter fun row => decide (¬ (metaStateB row colId = some CellState.done ∧
    truthyValue (alookup row.values colId) = true))

/-- Task construction inside the build loop of `startCompute`
(`lib/store.ts` lines 441-448): per field the precedence is per-call JSON
option, then per-column override, then global default; `modelId` uses JS
`||` (empty string falsy), `temperature` and `maxTokens` use `??`. -/
def mkTaskFor (parsed : ParsedFormula) (col : Column) (settings : Settings)
    (colId : String) (row : Row) (rendered : String) : ComputeTask :=
  { rowId := row.id
    columnId := colId
    prompt := rendered
    modelId := jsOrString (parsed.options.bind FormulaOptions.model)
      (jsOrString (col.ai.bind AIConfig.modelId) settings.defaultModelId)
    temperature := ((parsed.options.bind FormulaOptions.temperature).orElse
      (fun _ => col.ai.bind AIConfig.temperature)).getD settings.defaultTemperature
    maxTokens := ((parsed.options.bind FormulaOptions.maxTokens).orElse
      (fun _ => col.ai.bind AIConfig.maxTokens)).getD settings.defaultMaxTokens }

/-- The task-building loop of `startCompute` (`lib/store.ts` lines
422-449), threading the store rows (each iteration's `updateCellState` /
`updateCell` acts on the current store state) and accumulating tasks:
each selected row is first marked `queued`; if its rendered prompt trims
to empty, the cell immediately gets value `""` and state `done` and no
task is enqueued; otherwise a task is appended. -/
def buildTasksGo (parsed : ParsedFormula) (col : Column) (settings : Settings)
    (colsByName : List (String × Column)) (colId : String) :
    List Row → List Row × List ComputeTask → List Row × List ComputeTask
  | [], acc => acc
  | row :: rest, acc =>
      let rows1 := updateCellStateRows acc.1 row.id colId CellState.queued none
      let rendered := (renderTemplate parsed.template row colsByName settings.maxInputChars).1
      if jsTrim rendered = "" then
        let rows2 := updateCellRows rows1 row.id colId (JSValue.str "")
        let rows3 := updateCellStateRows rows2 row.id colId CellState.done none
        buildTasksGo parsed col settings colsByName colId rest (rows3, acc.2)
      else
        buildTasksGo parsed col settings colsByName colId rest
          (rows1, acc.2 ++ [mkTaskFor parsed col settings colId row rendered])

/-- The name map `new Map(columns.map(col => [col.name, col]))` from `startCompute`:
for duplicate names, later columns overwrite earlier ones, as in a JS
`Map`. -/
def mkNameMap (cols : List Column) : List (String × Column) :=
  cols.foldl (fun acc c => aset acc c.name c) []

/-- The guard `!column || column.kind !== 'ai' || !column.formula` from
`startCompute` (an empty-string formula is falsy and also rejected). -/
def columnComputable (col : Column) : Bool :=
  decide (col.kind = ColumnKind.ai) &&
    (match col.formula with
     | some f => decide (¬ f = "")
     | none => false)

/-- Selection plus build loop over a sheet, as invoked by
`startComputePhase`. -/
def buildTasks (parsed : ParsedFormula) (col : Column) (settings : Settings)
    (sheet : Sheet) (colId : String) (retry forceAll : Bool) :
    List Row × List ComputeTask :=
  buildTasksGo parsed col settings (mkNameMap sheet.columns) colId
    (selectRows sheet.rows colId retry forceAll) (sheet.rows, [])

/-- The possible exits of the synchronous phase of `startCompute`
(`lib/store.ts` lines 348-457, everything before the `batchCompletions`
call), each carrying the store state at that exit. -/
inductive StartOutcome where
  | noSheet (st : AppState)
  | badColumn (st : AppState)
  | parseError (msg : String) (st : AppState)
  | noTasks (st : AppState)
  | ready (st : AppState) (tasks : List ComputeTask)
deriving Repr, DecidableEq

/-- The synchronous phase of `startCompute` (`lib/store.ts` lines
348-457): set `isComputing` and create the controller; bail out when
there is no sheet (the source leaves `isComputing` true on that path) or
the column is not a formula-bearing AI column; count the rows to process
and (re)initialize the column's progress entry; then parse the formula —
on a parse error reset the flags and exit (the alert is the carried
message); otherwise run the task-building loop (which mutates cell
states) and exit with `noTasks` or `ready`. -/
def startComputePhase (st : AppState) (columnId : String) (retry forceAll : Bool) :
    StartOutcome :=
  let st1 : AppState := { st with isComputing := true, hasController := true }
  match st1.currentSheet with
  | none => StartOutcome.noSheet st1
  | some sheet =>
      match sheet.columns.find? (fun c => c.id == columnId) with
      | none => StartOutcome.badColumn { st1 with isComputing := false, hasController := false }
      | some col =>
          if ¬ columnComputable col then
            StartOutcome.badColumn { st1 with isComputing := false, hasController := false }
          else
            let toProcess := computeToProcess sheet.rows columnId retry forceAll
            let newProgress := aset st1.computeProgress columnId ⟨toProcess, toProcess, 0, 0, 0⟩
            let st2 : AppState := { st1 with computeProgress := newProgress }
            match parseFormula (col.formula.getD "") with
            | FormulaOut.err msg =>
                StartOutcome.parseError msg
                  { st2 with isComputing := false, hasController := false }
            | FormulaOut.ok parsed =>
                let bt := buildTasks parsed col st.settings sheet columnId retry forceAll
                let st3 : AppState := { st2 with currentSheet := some { sheet with rows := bt.1 } }
                if bt.2.isEmpty then
                  StartOutcome.noTasks { st3 with isComputing := false, hasController := false }
                else StartOutcome.ready st3 bt.2

/-- Function stopCompute from `lib/store.ts` lines 587-596: abort the controller
(the signal effect is the `abortSig` event of the run model below) and
clear the computing flag and controller reference; it touches neither the
rows nor any progress entry. -/
def stopCompute (st : AppState) : AppState :=
  { st with isComputing := false, hasController := false }

/-- Claim C6, amended. When the column's formula is malformed, the
synchronous phase of `startCompute` exits with the parse error before any
task is built (hence before any network call) and without touching any
row or cell state — the sheet is carried over unchanged — but it is not
free of side effects: the column's `ComputeProgress` entry has already
been replaced by a freshly initialized `{total, queued, 0, 0, 0}` entry
computed from the current rows (and `isComputing` was toggled on and back
off). -/
theorem C6_theorem (st : AppState) (columnId : String) (retry forceAll : Bool)
    (sheet : Sheet) (col : Column) (msg : String)
    (hsheet : st.currentSheet = some sheet)
    (hfind : sheet.columns.find? (fun c => c.id == columnId) = some col)
    (hok : columnComputable col = true)
    (herr : parseFormula (col.formula.getD "") = FormulaOut.err msg) :
    startComputePhase st columnId retry forceAll =
      StartOutcome.parseError msg
        { st with
            isComputing := false
            hasController := false
            computeProgress := aset st.computeProgress columnId
              ⟨computeToProcess sheet.rows columnId retry forceAll,
                computeToProcess sheet.rows columnId retry forceAll, 0, 0, 0⟩ } := by
  unfold startComputePhase
  simp [hsheet, hfind, hok, herr]

/-- Fixture: a sheet whose AI column has the malformed formula `=AI(x)`
and a stale progress entry from a previous run. -/
def exCol6 : Column := ⟨"c", "AI", ColumnKind.ai, some "=AI(x)", none⟩

/-- Fixture sheet for C6. -/
def exSheet6 : Sheet := ⟨"s", "sheet", [exCol6], [⟨"r0", [], []⟩, ⟨"r1", [], []⟩]⟩

/-- Fixture settings (claims never depend on the concrete values). -/
def exSettings : Settings := ⟨"m", 0, 1, 2, none⟩

/-- Fixture app state for C6 with a prior progress entry for column `c`. -/
def exState6 : AppState := ⟨some exSheet6, exSettings, false, [("c", ⟨5, 0, 0, 5, 0⟩)], false⟩

/-- Claim C6, counterexample. Starting a compute run on a column whose
formula is malformed is not free of side effects: the column's progress
entry is re-initialized before the parse check. Here the prior entry
`{total 5, done 5}` is replaced by `{total 2, queued 2}` even though the
run exits with the parse error. -/
theorem C6_counterexample :
    startComputePhase exState6 "c" false false =
      StartOutcome.parseError "Formula template must be a quoted string"
        { exState6 with
            isComputing := false
            hasController := false
            computeProgress := [("c", ⟨2, 2, 0, 0, 0⟩)] } ∧
    alookup exState6.computeProgress "c" = some ⟨5, 0, 0, 5, 0⟩ ∧
    (some (⟨2, 2, 0, 0, 0⟩ : ComputeProgress) ≠ some (⟨5, 0, 0, 5, 0⟩ : ComputeProgress)) := by
  refine ⟨by decide, by decide, by decide⟩

/-- Witness for C6 at the concrete fixture state. -/
theorem C6_witness :
    exState6.currentSheet = some exSheet6 ∧
    startComputePhase exState6 "c" false false =
      StartOutcome.parseError "Formula template must be a quoted string"
        { exState6 with
            isComputing := false
            hasController := false
            computeProgress := aset exState6.computeProgress "c"
              ⟨computeToProcess exSheet6.rows "c" false false,
                computeToProcess exSheet6.rows "c" false false, 0, 0, 0⟩ } :=
  ⟨rfl, C6_theorem exState6 "c" false false exSheet6 exCol6
    "Formula template must be a quoted string" rfl (by decide) (by decide) (by decide)⟩

/-- The "error is truthy" check `if (result.error)` used by the compute
callbacks (an empty-string error message is falsy in JS). -/
def errTruthy (r : ComputeResult) : Bool :=
  match r.error with
  | some e => decide (e ≠ "")
  | none => false

/-- The cell meta written by the `onResult` callback for a result: the
error branch stores the message, the done branch omits the error
argument. -/
def metaForResult (r : ComputeResult) : CellMeta :=
  if errTruthy r then ⟨CellState.error, r.error⟩ else ⟨CellState.done, none⟩

/-- The environment's answer to one `fetch` round-trip in `getCompletion`
(`lib/ai.ts`): HTTP success with the optional first-choice content, a
non-2xx status with the optional parsed body message, an in-payload API
error, an abort, or a thrown exception (`none` for a non-`Error` throw). -/
inductive NetOutcome where
  | ok (content : Option String)
  | httpErr (status : Nat) (statusText : String) (parsedMsg : Option String)
  | apiErr (msg : Option String)
  | abortedReq
  | exn (msg : Option String)
deriving Repr, DecidableEq

/-- Function getCompletion from `lib/ai.ts`: a missing key (empty string, as
`getApiKey` returns `'' `when unset) short-circuits with the
configuration error; an empty trimmed prompt resolves to an empty value
without a network call; otherwise the round-trip outcome is mapped to a
uniform `ComputeResult` — no branch throws, and every branch carries the
task's own `rowId`/`columnId`. -/
def getCompletion (task : ComputeTask) (apiKey : String) (o : NetOutcome) : ComputeResult :=
  if apiKey = "" then
    ⟨task.rowId, task.columnId, "",
      some "OpenRouter API key not configured. Please add your API key in Settings (gear icon in header)."⟩
  else if jsTrim task.prompt = "" then ⟨task.rowId, task.columnId, "", none⟩
  else
    match o with
    | NetOutcome.ok content => ⟨task.rowId, task.columnId, jsTrim (jsOrString content ""), none⟩
    | NetOutcome.httpErr status statusText parsedMsg =>
        ⟨task.rowId, task.columnId, "",
          some (jsOrString parsedMsg ("HTTP " ++ toString status ++ ": " ++ statusText))⟩
    | NetOutcome.apiErr msg =>
        ⟨task.rowId, task.columnId, "", some (jsOrString msg "Unknown API error")⟩
    | NetOutcome.abortedReq => ⟨task.rowId, task.columnId, "", some "Request cancelled"⟩
    | NetOutcome.exn msg =>
        ⟨task.rowId, task.columnId, "",
          some (match msg with
            | some m => m
            | none => "Unknown error occurred")⟩

theorem getCompletion_rowId (task : ComputeTask) (apiKey : String) (o : NetOutcome) :
    (getCompletion task apiKey o).rowId = task.rowId := by
  cases o <;> unfold getCompletion <;> split_ifs <;> simp

theorem getCompletion_columnId (task : ComputeTask) (apiKey : String) (o : NetOutcome) :
    (getCompletion task apiKey o).columnId = task.columnId := by
  cases o <;> unfold getCompletion <;> split_ifs <;> simp

/-- The `onTaskStart` callback installed by `startCompute` (`lib/store.ts`
lines 493-503): cell `running`; aggregate `running + 1` and
`queued = Math.max(0, queued - 1)` (truncated subtraction on `Nat`). -/
def onStartUpdate (t : ComputeTask) (sheet : List Row) (p : ComputeProgress) :
    List Row × ComputeProgress :=
  (updateCellStateRows sheet t.rowId t.columnId CellState.running none,
    { p with running := p.running + 1, queued := p.queued - 1 })

/-- The `onResult` callback installed by `startCompute` (`lib/store.ts`
lines 464-491): on a truthy error, cell `error` storing the message and
aggregate `failed + 1`, `running = Math.max(0, running - 1)`; otherwise
store the value, cell `done` (error omitted), aggregate `done + 1`,
`running = Math.max(0, running - 1)`. -/
def onResultUpdate (r : ComputeResult) (sheet : List Row) (p : ComputeProgress) :
    List Row × ComputeProgress :=
  if errTruthy r then
    (updateCellStateRows sheet r.rowId r.columnId CellState.error r.error,
      { p with failed := p.failed + 1, running := p.running - 1 })
  else
    (updateCellStateRows (updateCellRows sheet r.rowId r.columnId (JSValue.str r.value))
        r.rowId r.columnId CellState.done none,
      { p with done := p.done + 1, running := p.running - 1 })

/-- The observable state of one `batchCompletions` run driven by the
`startCompute` callbacks: the store rows and the target column's progress
entry (the only store pieces the callbacks touch), the cancel signal, the
p-limit bookkeeping (FIFO `pending` queue, in-flight `active` set,
per-index `results`), the indices short-circuited after cancellation
(`ccs`), and the callback invocation counters. -/
structure RunState where
  sheet : List Row
  progress : ComputeProgress
  aborted : Bool
  pending : List Nat
  active : List Nat
  results : List (Nat × ComputeResult)
  ccs : List Nat
  startCalls : Nat
  resultCalls : Nat
deriving Repr, DecidableEq

/-- Events of a run: the cooperative interleaving points of
`batchCompletions` (`lib/ai.ts` lines 509-535) under the p-limit
scheduler, plus the user's stop flipping the shared signal. -/
inductive Ev where
  | abortSig
  | dispatch
  | shortCircuit
  | finish (i : Nat) (o : NetOutcome)
deriving Repr, DecidableEq

/-- One step of a run. `dispatch` is p-limit starting the next queued
task when a slot is free (`active.length < n`) and the signal is not yet
aborted: `onTaskStart` fires and the network call begins. `shortCircuit`
is the limiter picking a task up after cancellation: the wrapped function
returns the `Batch cancelled` result immediately, without invoking
`onTaskStart`, `getCompletion` or `onResult` (the early `return` skips
`onProgress`). `finish i o` is an in-flight call resolving with network
outcome `o`: `getCompletion`'s result is delivered to `onResult`.
`abortSig` is `stopCompute` aborting the controller. Events that are
impossible in the given state yield `none`. -/
def runStep (tasks : List ComputeTask) (n : Nat) (apiKey : String) (s : RunState) :
    Ev → Option RunState
  | Ev.abortSig => some { s with aborted := true }
  | Ev.dispatch =>
      match s.pending with
      | [] => none
      | i :: rest =>
          if s.aborted then none
          else if s.active.length < n then
            match tasks.get? i with
            | none => none
            | some t =>
                some { s with
                    pending := rest
                    active := s.active ++ [i]
                    sheet := (onStartUpdate t s.sheet s.progress).1
                    progress := (onStartUpdate t s.sheet s.progress).2
                    startCalls := s.startCalls + 1 }
          else none
  | Ev.shortCircuit =>
      match s.pending with
      | [] => none
      | i :: rest =>
          if s.aborted && decide (s.active.length < n) then
            match tasks.get? i with
            | none => none
            | some t =>
                some { s with
                    pending := rest
                    results := s.results ++ [(i, ⟨t.rowId, t.columnId, "", some "Batch cancelled"⟩)]
                    ccs := s.ccs ++ [i] }
          else none
  | Ev.finish i o =>
      if i ∈ s.active then
        match tasks.get? i with
        | none => none
        | some t =>
            some { s with
                active := s.active.erase i
                results := s.results ++ [(i, getCompletion t apiKey o)]
                sheet := (onResultUpdate (getCompletion t apiKey o) s.sheet s.progress).1
                progress := (onResultUpdate (getCompletion t apiKey o) s.sheet s.progress).2
                resultCalls := s.resultCalls + 1 }
      else none

/-- Folds a list of events from an initial run state; `none` if some
event is impossible in its state. -/
def runTrace (tasks : List ComputeTask) (n : Nat) (apiKey : String) :
    RunState → List Ev → Option RunState
  | s, [] => some s
  | s, e :: evs =>
      match runStep tasks n apiKey s e with
      | none => none
      | some s' => runTrace tasks n apiKey s' evs

/-- The run state at the start of `batchCompletions`: all task indices
queued FIFO, nothing in flight, the column's progress entry as read from
the store. -/
def mkInitRun (sheet : List Row) (p : ComputeProgress) (m : Nat) : RunState :=
  ⟨sheet, p, false, List.range m, [], [], [], 0, 0⟩

/-- Fallback run state (for extracting the result of a concrete trace). -/
def runDflt : RunState := ⟨[], ⟨0, 0, 0, 0, 0⟩, false, [], [], [], [], 0, 0⟩

theorem runStep_abort_inv (tasks : List ComputeTask) (n : Nat) (apiKey : String)
    (s s' : RunState) (h : runStep tasks n apiKey s Ev.abortSig = some s') :
    s' = { s with aborted := true } := by
  simpa [runStep] using h.symm

theorem runStep_dispatch_inv (tasks : List ComputeTask) (n : Nat) (apiKey : String)
    (s s' : RunState) (h : runStep tasks n apiKey s Ev.dispatch = some s') :
    ∃ i rest t, s.pending = i :: rest ∧ s.aborted = false ∧ s.active.length < n ∧
      tasks.get? i = some t ∧
      s' = { s with
        pending := rest
        active := s.active ++ [i]
        sheet := (onStartUpdate t s.sheet s.progress).1
        progress := (onStartUpdate t s.sheet s.progress).2
        startCalls := s.startCalls + 1 } := by
  simp only [runStep] at h
  split at h
  · exact absurd h (by simp)
  next i rest hp =>
    split at h
    · exact absurd h (by simp)
    next hab =>
      split at h
      next hn =>
        split at h
        · exact absurd h (by simp)
        next t hg =>
          exact ⟨i, rest, t, hp, by simpa using hab, hn, hg, by simpa using h.symm⟩
      next hn => exact absurd h (by simp)

theorem runStep_shortCircuit_inv (tasks : List ComputeTask) (n : Nat) (apiKey : String)
    (s s' : RunState) (h : runStep tasks n apiKey s Ev.shortCircuit = some s') :
    ∃ i rest t, s.pending = i :: rest ∧ s.aborted = true ∧ s.active.length < n ∧
      tasks.get? i = some t ∧
      s' = { s with
        pending := rest
        results := s.results ++ [(i, ⟨t.rowId, t.columnId, "", some "Batch cancelled"⟩)]
        ccs := s.ccs ++ [i] } := by
  simp only [runStep] at h
  split at h
  · exact absurd h (by simp)
  next i rest hp =>
    split at h
    next hcond =>
      split at h
      · exact absurd h (by simp)
      next t hg =>
        have hc := hcond
        simp only [Bool.and_eq_true, decide_eq_true_eq] at hc
        exact ⟨i, rest, t, hp, hc.1, hc.2, hg, by simpa using h.symm⟩
    next hcond => exact absurd h (by simp)

theorem runStep_finish_inv (tasks : List ComputeTask) (n : Nat) (apiKey : String)
    (s s' : RunState) (i : Nat) (o : NetOutcome)
    (h : runStep tasks n apiKey s (Ev.finish i o) = some s') :
    ∃ t, i ∈ s.active ∧ tasks.get? i = some t ∧
      s' = { s with
        active := s.active.erase i
        results := s.results ++ [(i, getCompletion t apiKey o)]
        sheet := (onResultUpdate (getCompletion t apiKey o) s.sheet s.progress).1
        progress := (onResultUpdate (getCompletion t apiKey o) s.sheet s.progress).2
        resultCalls := s.resultCalls + 1 } := by
  simp only [runStep] at h
  split at h
  next hmem =>
    split at h
    · exact absurd h (by simp)
    next t hg => exact ⟨t, hmem, hg, by simpa using h.symm⟩
  next hmem => exact absurd h (by simp)

/-- Counting invariant of a run: dispatches = in-flight + finished, and
pending + dispatched + short-circuited = total tasks. -/
def CountInv (m : Nat) (s : RunState) : Prop :=
  s.startCalls = s.active.length + s.resultCalls ∧
  s.pending.length + s.startCalls + s.ccs.length = m

theorem countInv_step (tasks : List ComputeTask) (n : Nat) (apiKey : String)
    (s s' : RunState) (e : Ev) (hstep : runStep tasks n apiKey s e = some s')
    (hinv : CountInv tasks.length s) : CountInv tasks.length s' := by
  obtain ⟨h1, h2⟩ := hinv
  cases e with
  | abortSig =>
      have := runStep_abort_inv tasks n apiKey s s' hstep
      subst this
      exact ⟨h1, h2⟩
  | dispatch =>
      obtain ⟨i, rest, t, hp, _, _, _, hs'⟩ := runStep_dispatch_inv tasks n apiKey s s' hstep
      subst hs'
      constructor
      · simp [h1]
        omega
      · have : s.pending.length = rest.length + 1 := by rw [hp]; simp
        simp
        omega
  | shortCircuit =>
      obtain ⟨i, rest, t, hp, _, _, _, hs'⟩ := runStep_shortCircuit_inv tasks n apiKey s s' hstep
      subst hs'
      constructor
      · simpa using h1
      · have : s.pending.length = rest.length + 1 := by rw [hp]; simp
        simp
        omega
  | finish i o =>
      obtain ⟨t, hmem, _, hs'⟩ := runStep_finish_inv tasks n apiKey s s' i o hstep
      subst hs'
      have herase : (s.active.erase i).length = s.active.length - 1 :=
        List.length_erase_of_mem hmem
      have hpos : 0 < s.active.length := List.length_pos.mpr (List.ne_nil_of_mem hmem)
      constructor
      · simp [herase]
        omega
      · simp
        omega

theorem countInv_trace (tasks : List ComputeTask) (n : Nat) (apiKey : String)
    (evs : List Ev) (s0 s : RunState)
    (htr : runTrace tasks n apiKey s0 evs = some s)
    (hinv : CountInv tasks.length s0) : CountInv tasks.length s := by
  induction evs generalizing s0 with
  | nil =>
      simp [runTrace] at htr
      subst htr
      exact hinv
  | cons e evs ih =>
      simp only [runTrace] at htr
      cases hstep : runStep tasks n apiKey s0 e with
      | none => rw [hstep] at htr; simp at htr
      | some s1 =>
          rw [hstep] at htr
          exact ih s1 htr (countInv_step tasks n apiKey s0 s1 e hstep hinv)

/-- Progress invariant of a run relative to the initial total `T`. -/
def ProgressInv (T : Nat) (s : RunState) : Prop :=
  s.progress.total = T ∧
  s.progress.queued = T - s.startCalls ∧
  s.progress.running = s.active.length ∧
  s.progress.done + s.progress.failed = s.resultCalls

theorem progressInv_step (tasks : List ComputeTask) (n : Nat) (apiKey : String)
    (s s' : RunState) (e : Ev) (T : Nat) (hstep : runStep tasks n apiKey s e = some s')
    (hinv : ProgressInv T s) : ProgressInv T s' := by
  obtain ⟨h1, h2, h3, h4⟩ := hinv
  cases e with
  | abortSig =>
      have := runStep_abort_inv tasks n apiKey s s' hstep
      subst this
      exact ⟨h1, h2, h3, h4⟩
  | dispatch =>
      obtain ⟨i, rest, t, hp, _, _, _, hs'⟩ := runStep_dispatch_inv tasks n apiKey s s' hstep
      subst hs'
      refine ⟨by simpa [onStartUpdate] using h1, ?_, ?_, by simpa [onStartUpdate] using h4⟩
      · simp [onStartUpdate, h2]
        omega
      · simp [onStartUpdate, h3]
  | shortCircuit =>
      obtain ⟨i, rest, t, hp, _, _, _, hs'⟩ := runStep_shortCircuit_inv tasks n apiKey s s' hstep
      subst hs'
      exact ⟨h1, h2, h3, h4⟩
  | finish i o =>
      obtain ⟨t, hmem, _, hs'⟩ := runStep_finish_inv tasks n apiKey s s' i o hstep
      subst hs'
      have herase : (s.active.erase i).length = s.active.length - 1 :=
        List.length_erase_of_mem hmem
      by_cases herr : errTruthy (getCompletion t apiKey o)
      · refine ⟨by simpa [onResultUpdate, herr] using h1,
          by simpa [onResultUpdate, herr] using h2, ?_, ?_⟩
        · simp [onResultUpdate, herr, herase, h3]
        · simp [onResultUpdate, herr]
          omega
      · refine ⟨by simpa [onResultUpdate, herr] using h1,
          by simpa [onResultUpdate, herr] using h2, ?_, ?_⟩
        · simp [onResultUpdate, herr, herase, h3]
        · simp [onResultUpdate, herr]
          omega

theorem progressInv_trace (tasks : List ComputeTask) (n : Nat) (apiKey : String)
    (evs : List Ev) (s0 s : RunState) (T : Nat)
    (htr : runTrace tasks n apiKey s0 evs = some s)
    (hinv : ProgressInv T s0) : ProgressInv T s := by
  induction evs generalizing s0 with
  | nil =>
      simp [runTrace] at htr
      subst htr
      exact hinv
  | cons e evs ih =>
      simp only [runTrace] at htr
      cases hstep : runStep tasks n apiKey s0 e with
      | none => rw [hstep] at htr; simp at htr
      | some s1 =>
          rw [hstep] at htr
          exact ih s1 htr (progressInv_step tasks n apiKey s0 s1 e T hstep hinv)

theorem activeBound_step (tasks : List ComputeTask) (n : Nat) (apiKey : String)
    (s s' : RunState) (e : Ev) (hstep : runStep tasks n apiKey s e = some s')
    (hb : s.active.length ≤ n) : s'.active.length ≤ n := by
  cases e with
  | abortSig =>
      have := runStep_abort_inv tasks n apiKey s s' hstep
      subst this
      exact hb
  | dispatch =>
      obtain ⟨i, rest, t, _, _, hn, _, hs'⟩ := runStep_dispatch_inv tasks n apiKey s s' hstep
      subst hs'
      simp
      omega
  | shortCircuit =>
      obtain ⟨i, rest, t, _, _, _, _, hs'⟩ := runStep_shortCircuit_inv tasks n apiKey s s' hstep
      subst hs'
      exact hb
  | finish i o =>
      obtain ⟨t, hmem, _, hs'⟩ := runStep_finish_inv tasks n apiKey s s' i o hstep
      subst hs'
      have herase : (s.active.erase i).length = s.active.length - 1 :=
        List.length_erase_of_mem hmem
      simp [herase]
      omega

/-- Claim C3. Concurrency bound of `batchCompletions`: for a task list of
length `M` and concurrency `N < M`, at every reachable instant of the run
the number of simultaneously dispatched (started but unresolved) tasks is
at most `N` — p-limit dispatches the head of the queue only when
`active.length < N`, so further tasks wait until a slot frees. -/
theorem C3_concurrency_bound (tasks : List ComputeTask) (n : Nat) (apiKey : String)
    (sheet0 : List Row) (p0 : ComputeProgress) (evs : List Ev) (s : RunState)
    (_hNM : n < tasks.length)
    (htr : runTrace tasks n apiKey (mkInitRun sheet0 p0 tasks.length) evs = some s) :
    s.active.length ≤ n := by
  have h0 : (mkInitRun sheet0 p0 tasks.length).active.length ≤ n := by simp [mkInitRun]
  revert htr h0
  generalize mkInitRun sheet0 p0 tasks.length = s0
  intro htr h0
  induction evs generalizing s0 with
  | nil =>
      simp [runTrace] at htr
      subst htr
      exact h0
  | cons e evs ih =>
      simp only [runTrace] at htr
      cases hstep : runStep tasks n apiKey s0 e with
      | none => rw [hstep] at htr; simp at htr
      | some s1 =>
          rw [hstep] at htr
          exact ih s1 htr (activeBound_step tasks n apiKey s0 s1 e hstep h0)

/-- Claim C2, amended. In a completed `batchCompletions` run, `onResult`
fires exactly once per task that was actually dispatched — tasks
short-circuited with `Batch cancelled` because the cancel signal was
already set resolve in the returned results WITHOUT an `onResult`
invocation (the early return skips `onProgress`) — so the number of
`onResult` invocations is `tasks.length` minus the number of
short-circuited tasks, and equals the number of `onTaskStart` calls. -/
theorem C2_theorem (tasks : List ComputeTask) (n : Nat) (apiKey : String)
    (sheet0 : List Row) (p0 : ComputeProgress) (evs : List Ev) (s : RunState)
    (htr : runTrace tasks n apiKey (mkInitRun sheet0 p0 tasks.length) evs = some s)
    (hpend : s.pending = []) (hact : s.active = []) :
    s.resultCalls + s.ccs.length = tasks.length ∧ s.resultCalls = s.startCalls := by
  have h0 : CountInv tasks.length (mkInitRun sheet0 p0 tasks.length) := by
    constructor <;> simp [mkInitRun]
  have hinv := countInv_trace tasks n apiKey evs _ s htr h0
  obtain ⟨h1, h2⟩ := hinv
  simp only [hpend, hact, List.length_nil] at h1 h2
  omega

/-- Fixture task for the scheduler claims. -/
def exTaskA : ComputeTask := ⟨"r0", "c", "hi", "m", 0, 1⟩

/-- Fixture initial rows for the scheduler claims (cell queued). -/
def exRowsA : List Row := [⟨"r0", [], [("c", ⟨CellState.queued, none⟩)]⟩]

/-- Final state of the C2 counterexample trace: cancel before dispatch,
then the limiter picks the task up and short-circuits. -/
def exRunC2 : RunState :=
  (runTrace [exTaskA] 1 "k" (mkInitRun exRowsA ⟨1, 1, 0, 0, 0⟩ 1)
    [Ev.abortSig, Ev.shortCircuit]).getD runDflt

/-- Claim C2, counterexample. One task, cancel signal set before dispatch:
the run completes and the task resolves as `Batch cancelled` in the
returned results, but `onResult` is never invoked — 0 invocations, not
`tasks.length = 1` as the claim requires. -/
theorem C2_counterexample :
    runTrace [exTaskA] 1 "k" (mkInitRun exRowsA ⟨1, 1, 0, 0, 0⟩ 1)
        [Ev.abortSig, Ev.shortCircuit] = some exRunC2 ∧
      exRunC2.pending = [] ∧ exRunC2.active = [] ∧
      exRunC2.results = [(0, ⟨"r0", "c", "", some "Batch cancelled"⟩)] ∧
      exRunC2.resultCalls = 0 ∧ ([exTaskA] : List ComputeTask).length = 1 ∧
      (0 : Nat) ≠ 1 := by
  refine ⟨rfl, by decide, by decide, by decide, by decide, by decide, by decide⟩

/-- Witness for the amended C2 on the concrete completed trace. -/
theorem C2_witness :
    exRunC2.pending = [] ∧ exRunC2.active = [] ∧
      (exRunC2.resultCalls + exRunC2.ccs.length = ([exTaskA] : List ComputeTask).length ∧
        exRunC2.resultCalls = exRunC2.startCalls) :=
  ⟨by decide, by decide,
    C2_theorem [exTaskA] 1 "k" exRowsA ⟨1, 1, 0, 0, 0⟩ [Ev.abortSig, Ev.shortCircuit]
      exRunC2 rfl (by decide) (by decide)⟩

/-- Witness for C3 on a concrete run: two tasks, concurrency 1, one
dispatched — the in-flight count stays at most 1. -/
def exTaskB : ComputeTask := ⟨"r1", "c", "ho", "m", 0, 1⟩

/-- Final state of the C3 witness trace. -/
def exRunC3 : RunState :=
  (runTrace [exTaskA, exTaskB] 1 "k" (mkInitRun exRowsA ⟨2, 2, 0, 0, 0⟩ 2)
    [Ev.dispatch]).getD runDflt

theorem C3_witness :
    (1 < ([exTaskA, exTaskB] : List ComputeTask).length) ∧ exRunC3.active.length ≤ 1 :=
  ⟨by decide,
    C3_concurrency_bound [exTaskA, exTaskB] 1 "k" exRowsA ⟨2, 2, 0, 0, 0⟩
      [Ev.dispatch] exRunC3 (by decide) rfl⟩

theorem selectRows_length (rows : List Row) (colId : String) (retry forceAll : Bool) :
    (selectRows rows colId retry forceAll).length =
      computeToProcess rows colId retry forceAll := by
  unfold selectRows computeToProcess
  by_cases hr : retry <;> by_cases hf : forceAll <;> simp [hr, hf]

theorem buildTasksGo_cons_empty (parsed : ParsedFormula) (col : Column) (settings : Settings)
    (colsByName : List (String × Column)) (colId : String) (row : Row) (rest : List Row)
    (acc : List Row × List ComputeTask)
    (hre : jsTrim (renderTemplate parsed.template row colsByName settings.maxInputChars).1 = "") :
    buildTasksGo parsed col settings colsByName colId (row :: rest) acc =
      buildTasksGo parsed col settings colsByName colId rest
        (updateCellStateRows
          (updateCellRows (updateCellStateRows acc.1 row.id colId CellState.queued none)
            row.id colId (JSValue.str ""))
          row.id colId CellState.done none, acc.2) := by
  simp [buildTasksGo, hre]

theorem buildTasksGo_cons_task (parsed : ParsedFormula) (col : Column) (settings : Settings)
    (colsByName : List (String × Column)) (colId : String) (row : Row) (rest : List Row)
    (acc : List Row × List ComputeTask)
    (hre : ¬ jsTrim (renderTemplate parsed.template row colsByName settings.maxInputChars).1 = "") :
    buildTasksGo parsed col settings colsByName colId (row :: rest) acc =
      buildTasksGo parsed col settings colsByName colId rest
        (updateCellStateRows acc.1 row.id colId CellState.queued none,
          acc.2 ++ [mkTaskFor parsed col settings colId row
            (renderTemplate parsed.template row colsByName settings.maxInputChars).1]) := by
  simp [buildTasksGo, hre]

theorem buildTasksGo_tasks_length (parsed : ParsedFormula) (col : Column)
    (settings : Settings) (colsByName : List (String × Column)) (colId : String) :
    ∀ (sel : List Row) (acc : List Row × List ComputeTask),
      (buildTasksGo parsed col settings colsByName colId sel acc).2.length ≤
        acc.2.length + sel.length := by
  intro sel
  induction sel with
  | nil => intro acc; simp [buildTasksGo]
  | cons row rest ih =>
      intro acc
      by_cases hre :
          jsTrim (renderTemplate parsed.template row colsByName settings.maxInputChars).1 = ""
      · rw [buildTasksGo_cons_empty parsed col settings colsByName colId row rest acc hre]
        have h := ih (updateCellStateRows
          (updateCellRows (updateCellStateRows acc.1 row.id colId CellState.queued none)
            row.id colId (JSValue.str ""))
          row.id colId CellState.done none, acc.2)
        simp at h ⊢
        omega
      · rw [buildTasksGo_cons_task parsed col settings colsByName colId row rest acc hre]
        have h := ih (updateCellStateRows acc.1 row.id colId CellState.queued none,
          acc.2 ++ [mkTaskFor parsed col settings colId row
            (renderTemplate parsed.template row colsByName settings.maxInputChars).1])
        simp at h ⊢
        omega

theorem startComputePhase_ready_inv (st : AppState) (columnId : String)
    (retry forceAll : Bool) (st1 : AppState) (tasks : List ComputeTask)
    (h : startComputePhase st columnId retry forceAll = StartOutcome.ready st1 tasks) :
    ∃ T, alookup st1.computeProgress columnId = some ⟨T, T, 0, 0, 0⟩ ∧ tasks.length ≤ T := by
  simp only [startComputePhase] at h
  split at h
  · exact absurd h (by simp)
  next sheet hsheet =>
    split at h
    · exact absurd h (by simp)
    next col hfind =>
      split at h
      · exact absurd h (by simp)
      next hok =>
        split at h
        next msg hparse => exact absurd h (by simp)
        next parsed hparse =>
          split at h
          next hempty => exact absurd h (by simp)
          next hempty =>
            injection h with h1 h2
            subst h1
            subst h2
            refine ⟨computeToProcess sheet.rows columnId retry forceAll, ?_, ?_⟩
            · exact alookup_aset _ _ _
            · unfold buildTasks
              have hb := buildTasksGo_tasks_length parsed col st.settings
                (mkNameMap sheet.columns) columnId
                (selectRows sheet.rows columnId retry forceAll) (sheet.rows, [])
              simp [selectRows_length] at hb
              exact hb

/-- Claim C4. For a column with an active compute run — progress entry
freshly initialized by `startCompute`, task list produced by its build
phase — after every `onTaskStart`/`onResult` callback (indeed after every
event of the run, cancellation included) the column's `ComputeProgress`
satisfies `queued + running + done + failed = total`: a start decrements
`queued` exactly as it increments `running`, a result decrements
`running` exactly as it increments `done` or `failed`, and because at
most `tasks.length ≤ total` tasks ever start, the `Math.max(0, ...)`
clamps never engage. -/
theorem C4_progress_invariant (st : AppState) (columnId : String) (retry forceAll : Bool)
    (st1 : AppState) (tasks : List ComputeTask) (n : Nat) (apiKey : String)
    (sheet0 : List Row) (p0 : ComputeProgress) (evs : List Ev) (s : RunState)
    (hready : startComputePhase st columnId retry forceAll = StartOutcome.ready st1 tasks)
    (hp0 : alookup st1.computeProgress columnId = some p0)
    (htr : runTrace tasks n apiKey (mkInitRun sheet0 p0 tasks.length) evs = some s) :
    s.progress.queued + s.progress.running + s.progress.done + s.progress.failed =
      s.progress.total := by
  obtain ⟨T, hpT, hMT⟩ := startComputePhase_ready_inv st columnId retry forceAll st1 tasks hready
  rw [hp0] at hpT
  have hp0T := Option.some.inj hpT
  subst hp0T
  have hc0 : CountInv tasks.length (mkInitRun sheet0 ⟨T, T, 0, 0, 0⟩ tasks.length) := by
    constructor <;> simp [mkInitRun]
  have hpi0 : ProgressInv T (mkInitRun sheet0 ⟨T, T, 0, 0, 0⟩ tasks.length) := by
    refine ⟨rfl, by simp [mkInitRun], by simp [mkInitRun], by simp [mkInitRun]⟩
  obtain ⟨hc1, hc2⟩ := countInv_trace tasks n apiKey evs _ s htr hc0
  obtain ⟨hp1, hp2, hp3, hp4⟩ := progressInv_trace tasks n apiKey evs _ s T htr hpi0
  omega

/-- Fixture: a well-formed AI column with the constant formula
`=AI("hi")`. -/
def exColOk : Column := ⟨"c", "AI", ColumnKind.ai, some "=AI(\"hi\")", none⟩

/-- Fixture sheet with one row for the end-to-end C4 witness. -/
def exSheetOk : Sheet := ⟨"s", "sheet", [exColOk], [⟨"r0", [], []⟩]⟩

/-- Fixture app state for the C4 witness. -/
def exStateOk : AppState := ⟨some exSheetOk, exSettings, false, [], false⟩

/-- The state carried by a `StartOutcome`. -/
def readyState : StartOutcome → AppState
  | StartOutcome.noSheet st => st
  | StartOutcome.badColumn st => st
  | StartOutcome.parseError _ st => st
  | StartOutcome.noTasks st => st
  | StartOutcome.ready st _ => st

/-- The task list of a `ready` outcome (empty otherwise). -/
def readyTasks : StartOutcome → List ComputeTask
  | StartOutcome.ready _ tasks => tasks
  | _ => []

/-- The outcome of the C4 witness start phase. -/
def exPhaseOk : StartOutcome := startComputePhase exStateOk "c" false false

/-- The progress entry carried into the C4 witness run. -/
def exP0 : ComputeProgress :=
  (alookup (readyState exPhaseOk).computeProgress "c").getD ⟨0, 0, 0, 0, 0⟩

/-- Final state of the C4 witness run: dispatch the single task, then it
finishes successfully. -/
def exRunC4 : RunState :=
  (runTrace (readyTasks exPhaseOk) 1 "k"
    (mkInitRun exRowsA exP0 (readyTasks exPhaseOk).length)
    [Ev.dispatch, Ev.finish 0 (NetOutcome.ok (some "yo"))]).getD runDflt

/-- Witness for C4 on a concrete end-to-end run. -/
theorem C4_witness :
    exRunC4.progress.queued + exRunC4.progress.running + exRunC4.progress.done +
        exRunC4.progress.failed = exRunC4.progress.total :=
  C4_progress_invariant exStateOk "c" false false (readyState exPhaseOk)
    (readyTasks exPhaseOk) 1 "k" exRowsA exP0
    [Ev.dispatch, Ev.finish 0 (NetOutcome.ok (some "yo"))] exRunC4 rfl rfl rfl

theorem updateCellStateRows_map_id (rows : List Row) (rowId colId : String)
    (st : CellState) (err : Option String) :
    (updateCellStateRows rows rowId colId st err).map Row.id = rows.map Row.id := by
  induction rows with
  | nil => rfl
  | cons hd t ih =>
      by_cases hh : hd.id = rowId
      · simpa [updateCellStateRows, hh] using ih
      · simpa [updateCellStateRows, hh] using ih

theorem updateCellRows_map_id (rows : List Row) (rowId colId : String) (v : JSValue) :
    (updateCellRows rows rowId colId v).map Row.id = rows.map Row.id := by
  induction rows with
  | nil => rfl
  | cons hd t ih =>
      by_cases hh : hd.id = rowId
      · simpa [updateCellRows, hh] using ih
      · simpa [updateCellRows, hh] using ih

theorem valueOf_updateCellStateRows (rows : List Row) (rowId colId : String)
    (st : CellState) (err : Option String) (rowId' colId' : String) :
    valueOf (updateCellStateRows rows rowId colId st err) rowId' colId' =
      valueOf rows rowId' colId' := by
  induction rows with
  | nil => rfl
  | cons hd t ih =>
      by_cases hh : hd.id = rowId
      · rw [show updateCellStateRows (hd :: t) rowId colId st err =
            ({ hd with meta := aset hd.meta colId ⟨st, err⟩ } : Row)
              :: updateCellStateRows t rowId colId st err from by
              simp [updateCellStateRows, hh]]
        by_cases hh' : hd.id = rowId'
        · have h1 : ({ hd with meta := aset hd.meta colId ⟨st, err⟩ } : Row).id = rowId' := hh'
          simp [valueOf, h1, hh']
        · have h1 : ¬ ({ hd with meta := aset hd.meta colId ⟨st, err⟩ } : Row).id = rowId' := hh'
          simp [valueOf, h1, hh', ih]
      · rw [show updateCellStateRows (hd :: t) rowId colId st err =
            hd :: updateCellStateRows t rowId colId st err from by
              simp [updateCellStateRows, hh]]
        by_cases hh' : hd.id = rowId'
        · simp [valueOf, hh']
        · simp [valueOf, hh', ih]

theorem valueOf_updateCellRows_self (rows : List Row) (rowId colId : String) (v : JSValue)
    (hmem : ∃ r ∈ rows, r.id = rowId) :
    valueOf (updateCellRows rows rowId colId v) rowId colId = some v := by
  induction rows with
  | nil => simp at hmem
  | cons hd t ih =>
      by_cases h : hd.id = rowId
      · simp [updateCellRows, valueOf, h, alookup_aset]
      · have hmem' : ∃ r ∈ t, r.id = rowId := by
          obtain ⟨r, hr, hid⟩ := hmem
          rcases List.mem_cons.mp hr with rfl | hr2
          · exact absurd hid h
          · exact ⟨r, hr2, hid⟩
        have := ih hmem'
        simpa [updateCellRows, valueOf, h] using this

theorem valueOf_updateCellRows_ne (rows : List Row) (rowId colId : String) (v : JSValue)
    (rowId' colId' : String) (h : rowId' ≠ rowId) :
    valueOf (updateCellRows rows rowId colId v) rowId' colId' = valueOf rows rowId' colId' := by
  induction rows with
  | nil => rfl
  | cons hd t ih =>
      by_cases hh : hd.id = rowId
      · rw [show updateCellRows (hd :: t) rowId colId v =
            ({ hd with values := aset hd.values colId v } : Row)
              :: updateCellRows t rowId colId v from by
              simp [updateCellRows, hh]]
        have h1 : ¬ ({ hd with values := aset hd.values colId v } : Row).id = rowId' := by
          show ¬ hd.id = rowId'
          rw [hh]; exact fun hc => h hc.symm
        have h2 : ¬ hd.id = rowId' := by rw [hh]; exact fun hc => h hc.symm
        simp [valueOf, h1, h2, ih]
      · rw [show updateCellRows (hd :: t) rowId colId v =
            hd :: updateCellRows t rowId colId v from by
              simp [updateCellRows, hh]]
        by_cases hh' : hd.id = rowId'
        · simp [valueOf, hh']
        · simp [valueOf, hh', ih]

theorem buildTasksGo_frame (parsed : ParsedFormula) (col : Column) (settings : Settings)
    (colsByName : List (String × Column)) (colId : String) :
    ∀ (sel : List Row) (acc : List Row × List ComputeTask) (rid cid : String),
      (∀ r ∈ sel, r.id ≠ rid) →
      metaOf (buildTasksGo parsed col settings colsByName colId sel acc).1 rid cid =
          metaOf acc.1 rid cid ∧
        valueOf (buildTasksGo parsed col settings colsByName colId sel acc).1 rid cid =
          valueOf acc.1 rid cid := by
  intro sel
  induction sel with
  | nil => intro acc rid cid _; exact ⟨rfl, rfl⟩
  | cons row rest ih =>
      intro acc rid cid hne
      have hrow : rid ≠ row.id := fun hc => hne row (List.mem_cons_self row rest) hc.symm
      have hrest : ∀ r ∈ rest, r.id ≠ rid := fun r hr => hne r (List.mem_cons_of_mem row hr)
      by_cases hre :
          jsTrim (renderTemplate parsed.template row colsByName settings.maxInputChars).1 = ""
      · rw [buildTasksGo_cons_empty parsed col settings colsByName colId row rest acc hre]
        obtain ⟨hm, hv⟩ := ih (updateCellStateRows
          (updateCellRows (updateCellStateRows acc.1 row.id colId CellState.queued none)
            row.id colId (JSValue.str ""))
          row.id colId CellState.done none, acc.2) rid cid hrest
        refine ⟨?_, ?_⟩
        · rw [hm]
          simp only [metaOf_updateCellStateRows_ne _ _ _ _ _ _ _ hrow,
            metaOf_updateCellRows]
        · rw [hv]
          simp only [valueOf_updateCellStateRows,
            valueOf_updateCellRows_ne _ _ _ _ _ _ hrow]
      · rw [buildTasksGo_cons_task parsed col settings colsByName colId row rest acc hre]
        obtain ⟨hm, hv⟩ := ih (updateCellStateRows acc.1 row.id colId CellState.queued none,
          acc.2 ++ [mkTaskFor parsed col settings colId row
            (renderTemplate parsed.template row colsByName settings.maxInputChars).1])
          rid cid hrest
        refine ⟨?_, ?_⟩
        · rw [hm]
          simp only [metaOf_updateCellStateRows_ne _ _ _ _ _ _ _ hrow]
        · rw [hv]
          simp only [valueOf_updateCellStateRows]

theorem buildTasksGo_tasks_origin (parsed : ParsedFormula) (col : Column)
    (settings : Settings) (colsByName : List (String × Column)) (colId : String) :
    ∀ (sel : List Row) (acc : List Row × List ComputeTask) (t : ComputeTask),
      t ∈ (buildTasksGo parsed col settings colsByName colId sel acc).2 →
      t ∈ acc.2 ∨ ∃ r ∈ sel, t.rowId = r.id := by
  intro sel
  induction sel with
  | nil => intro acc t ht; exact Or.inl ht
  | cons row rest ih =>
      intro acc t ht
      by_cases hre :
          jsTrim (renderTemplate parsed.template row colsByName settings.maxInputChars).1 = ""
      · rw [buildTasksGo_cons_empty parsed col settings colsByName colId row rest acc hre] at ht
        rcases ih _ t ht with h | ⟨r, hr, hid⟩
        · exact Or.inl h
        · exact Or.inr ⟨r, List.mem_cons_of_mem row hr, hid⟩
      · rw [buildTasksGo_cons_task parsed col settings colsByName colId row rest acc hre] at ht
        rcases ih _ t ht with h | ⟨r, hr, hid⟩
        · rcases List.mem_append.mp h with h2 | h2
          · exact Or.inl h2
          · have : t = mkTaskFor parsed col settings colId row
                (renderTemplate parsed.template row colsByName settings.maxInputChars).1 := by
              simpa using h2
            exact Or.inr ⟨row, List.mem_cons_self row rest, by rw [this]; rfl⟩
        · exact Or.inr ⟨r, List.mem_cons_of_mem row hr, hid⟩

theorem buildTasksGo_tasks_sub (parsed : ParsedFormula) (col : Column)
    (settings : Settings) (colsByName : List (String × Column)) (colId : String) :
    ∀ (sel : List Row) (acc : List Row × List ComputeTask) (t : ComputeTask),
      t ∈ acc.2 → t ∈ (buildTasksGo parsed col settings colsByName colId sel acc).2 := by
  intro sel
  induction sel with
  | nil => intro acc t ht; exact ht
  | cons row rest ih =>
      intro acc t ht
      by_cases hre :
          jsTrim (renderTemplate parsed.template row colsByName settings.maxInputChars).1 = ""
      · rw [buildTasksGo_cons_empty parsed col settings colsByName colId row rest acc hre]
        exact ih _ t ht
      · rw [buildTasksGo_cons_task parsed col settings colsByName colId row rest acc hre]
        exact ih _ t (List.mem_append.mpr (Or.inl ht))

theorem exists_id_of_map (rows : List Row) (rid : String) :
    (∃ r ∈ rows, r.id = rid) ↔ rid ∈ rows.map Row.id := by
  simp [List.mem_map]

theorem buildTasksGo_row_spec (parsed : ParsedFormula) (col : Column) (settings : Settings)
    (colsByName : List (String × Column)) (colId : String) :
    ∀ (sel : List Row) (acc : List Row × List ComputeTask),
      (∀ r ∈ sel, ∃ rr ∈ acc.1, rr.id = r.id) →
      (sel.map Row.id).Nodup →
      (∀ t ∈ acc.2, ∀ r ∈ sel, t.rowId ≠ r.id) →
      ∀ row ∈ sel,
        (jsTrim (renderTemplate parsed.template row colsByName settings.maxInputChars).1 = "" →
          (∀ t ∈ (buildTasksGo parsed col settings colsByName colId sel acc).2,
            t.rowId ≠ row.id) ∧
          valueOf (buildTasksGo parsed col settings colsByName colId sel acc).1 row.id colId =
            some (JSValue.str "") ∧
          metaOf (buildTasksGo parsed col settings colsByName colId sel acc).1 row.id colId =
            some ⟨CellState.done, none⟩) ∧
        (¬ jsTrim (renderTemplate parsed.template row colsByName settings.maxInputChars).1 = "" →
          ∃ t ∈ (buildTasksGo parsed col settings colsByName colId sel acc).2,
            t.rowId = row.id ∧ t.prompt =
              (renderTemplate parsed.template row colsByName settings.maxInputChars).1) := by
  intro sel
  induction sel with
  | nil => intro acc _ _ _ row hrow; simp at hrow
  | cons row0 rest ih =>
      intro acc hmem hnd hacc row hrow
      have hnd0 : row0.id ∉ rest.map Row.id := by
        simp only [List.map_cons, List.nodup_cons] at hnd
        exact hnd.1
      have hndrest : (rest.map Row.id).Nodup := by
        simp only [List.map_cons, List.nodup_cons] at hnd
        exact hnd.2
      have hrestne : ∀ r ∈ rest, r.id ≠ row0.id := by
        intro r hr hc
        exact hnd0 (List.mem_map.mpr ⟨r, hr, hc⟩)
      obtain ⟨rr0, hrr0, hrr0id⟩ := hmem row0 (List.mem_cons_self row0 rest)
      rcases List.mem_cons.mp hrow with rfl | hrowrest
      · by_cases hre :
            jsTrim (renderTemplate parsed.template row colsByName settings.maxInputChars).1 = ""
        · rw [buildTasksGo_cons_empty parsed col settings colsByName colId row rest acc hre]
          have hfr := buildTasksGo_frame parsed col settings colsByName colId rest
            (updateCellStateRows
              (updateCellRows (updateCellStateRows acc.1 row.id colId CellState.queued none)
                row.id colId (JSValue.str ""))
              row.id colId CellState.done none, acc.2) row.id colId hrestne
          have hmem1 : ∃ r ∈ updateCellStateRows acc.1 row.id colId CellState.queued none,
              r.id = row.id := by
            refine (exists_id_of_map _ _).mpr ?_
            rw [updateCellStateRows_map_id]
            exact (exists_id_of_map _ _).mp ⟨rr0, hrr0, hrr0id⟩
          have hmem2 : ∃ r ∈ updateCellRows
              (updateCellStateRows acc.1 row.id colId CellState.queued none)
              row.id colId (JSValue.str ""), r.id = row.id := by
            refine (exists_id_of_map _ _).mpr ?_
            rw [updateCellRows_map_id, updateCellStateRows_map_id]
            exact (exists_id_of_map _ _).mp ⟨rr0, hrr0, hrr0id⟩
          constructor
          · intro _
            refine ⟨?_, ?_, ?_⟩
            · intro t ht hc
              rcases buildTasksGo_tasks_origin parsed col settings colsByName colId rest _ t ht
                with hin | ⟨r, hr, hid⟩
              · exact hacc t hin row (List.mem_cons_self row rest) hc
              · exact hnd0 (List.mem_map.mpr ⟨r, hr, (hc.symm.trans hid).symm⟩)
            · rw [hfr.2, valueOf_updateCellStateRows]
              exact valueOf_updateCellRows_self _ _ _ _ hmem1
            · rw [hfr.1]
              exact metaOf_updateCellStateRows_self _ _ _ _ _ hmem2
          · intro hcon
            exact absurd hre hcon
        · rw [buildTasksGo_cons_task parsed col settings colsByName colId row rest acc hre]
          constructor
          · intro hcon
            exact absurd hcon hre
          · intro _
            refine ⟨mkTaskFor parsed col settings colId row
              (renderTemplate parsed.template row colsByName settings.maxInputChars).1,
              ?_, rfl, rfl⟩
            apply buildTasksGo_tasks_sub
            simp
      · by_cases hre0 :
            jsTrim (renderTemplate parsed.template row0 colsByName settings.maxInputChars).1 = ""
        · rw [buildTasksGo_cons_empty parsed col settings colsByName colId row0 rest acc hre0]
          have hidchain : (updateCellStateRows
              (updateCellRows (updateCellStateRows acc.1 row0.id colId CellState.queued none)
                row0.id colId (JSValue.str ""))
              row0.id colId CellState.done none).map Row.id = acc.1.map Row.id := by
            rw [updateCellStateRows_map_id, updateCellRows_map_id, updateCellStateRows_map_id]
          refine ih _ ?_ hndrest ?_ row hrowrest
          · intro r hr
            refine (exists_id_of_map _ _).mpr ?_
            show r.id ∈ _
            rw [hidchain]
            exact (exists_id_of_map _ _).mp (hmem r (List.mem_cons_of_mem row0 hr))
          · intro t ht r hr
            exact hacc t ht r (List.mem_cons_of_mem row0 hr)
        · rw [buildTasksGo_cons_task parsed col settings colsByName colId row0 rest acc hre0]
          refine ih _ ?_ hndrest ?_ row hrowrest
          · intro r hr
            refine (exists_id_of_map _ _).mpr ?_
            show r.id ∈ _
            rw [updateCellStateRows_map_id]
            exact (exists_id_of_map _ _).mp (hmem r (List.mem_cons_of_mem row0 hr))
          · intro t ht r hr
            rcases List.mem_append.mp ht with hin | hin
            · exact hacc t hin r (List.mem_cons_of_mem row0 hr)
            · have ht0 : t = mkTaskFor parsed col settings colId row0
                  (renderTemplate parsed.template row0 colsByName settings.maxInputChars).1 := by
                simpa using hin
              rw [ht0]
              intro hc
              exact hnd0 (List.mem_map.mpr ⟨r, hr, hc.symm⟩)

theorem selectRows_sublist (rows : List Row) (colId : String) (retry forceAll : Bool) :
    List.Sublist (selectRows rows colId retry forceAll) rows := by
  unfold selectRows
  split_ifs <;> first | exact List.filter_sublist _ | exact List.Sublist.refl _

/-- Claim C7. For each row selected for a compute run, the build phase of
`startCompute` behaves dichotomously: if the row's rendered template text
is empty or whitespace-only, no `ComputeTask` is enqueued for that row
(and therefore no network call ever happens for it — the scheduler only
contacts the network for enqueued tasks) and the cell immediately gets
value `""` and state `done`; otherwise a `ComputeTask` carrying that
row's rendered prompt is enqueued. -/
theorem C7_empty_prompt_dichotomy (parsed : ParsedFormula) (col : Column)
    (settings : Settings) (sheet : Sheet) (colId : String) (retry forceAll : Bool)
    (hnd : (sheet.rows.map Row.id).Nodup) :
    ∀ row ∈ selectRows sheet.rows colId retry forceAll,
      (jsTrim (renderTemplate parsed.template row (mkNameMap sheet.columns)
          settings.maxInputChars).1 = "" →
        (∀ t ∈ (buildTasks parsed col settings sheet colId retry forceAll).2,
          t.rowId ≠ row.id) ∧
        valueOf (buildTasks parsed col settings sheet colId retry forceAll).1 row.id colId =
          some (JSValue.str "") ∧
        metaOf (buildTasks parsed col settings sheet colId retry forceAll).1 row.id colId =
          some ⟨CellState.done, none⟩) ∧
      (¬ jsTrim (renderTemplate parsed.template row (mkNameMap sheet.columns)
          settings.maxInputChars).1 = "" →
        ∃ t ∈ (buildTasks parsed col settings sheet colId retry forceAll).2,
          t.rowId = row.id ∧ t.prompt =
            (renderTemplate parsed.template row (mkNameMap sheet.columns)
              settings.maxInputChars).1) := by
  intro row hrow
  have hsub := selectRows_sublist sheet.rows colId retry forceAll
  have hndsel : ((selectRows sheet.rows colId retry forceAll).map Row.id).Nodup :=
    hnd.sublist (hsub.map Row.id)
  have hmem : ∀ r ∈ selectRows sheet.rows colId retry forceAll,
      ∃ rr ∈ (sheet.rows, ([] : List ComputeTask)).1, rr.id = r.id :=
    fun r hr => ⟨r, hsub.subset hr, rfl⟩
  exact buildTasksGo_row_spec parsed col settings (mkNameMap sheet.columns) colId
    (selectRows sheet.rows colId retry forceAll) (sheet.rows, []) hmem hndsel
    (by intro t ht; simp at ht) row hrow

/-- Fixture text column for the C7 witness. -/
def exNameColumn : Column := ⟨"cn", "Name", ColumnKind.text, none, none⟩

/-- Fixture sheet for the C7 witness: row `re` has an empty Name (its
prompt renders to the empty string), row `rb` has a non-empty one. -/
def exSheet7 : Sheet := ⟨"s", "sheet", [exNameColumn, exColOk],
  [⟨"re", [("cn", JSValue.str "")], []⟩, ⟨"rb", [("cn", JSValue.str "Bob")], []⟩]⟩

/-- The parsed formula `=AI("{{Name}}")` for the C7 witness. -/
def exParsed7 : ParsedFormula := ⟨"\x7b\x7bName\x7d\x7d", none⟩

/-- Witness for C7: the empty-rendering row is not enqueued, its value is
set to `""` and its state to `done`. -/
theorem C7_witness :
    (exSheet7.rows.map Row.id).Nodup ∧
    valueOf (buildTasks exParsed7 exColOk exSettings exSheet7 "c" false false).1 "re" "c" =
      some (JSValue.str "") ∧
    metaOf (buildTasks exParsed7 exColOk exSettings exSheet7 "c" false false).1 "re" "c" =
      some ⟨CellState.done, none⟩ :=
  have h := C7_empty_prompt_dichotomy exParsed7 exColOk exSettings exSheet7 "c" false false
    (by decide) ⟨"re", [("cn", JSValue.str "")], []⟩ (by decide)
  ⟨by decide, (h.1 (by decide)).2.1, (h.1 (by decide)).2.2⟩

/-- Keys of the results association list of a run. -/
def resKeys (s : RunState) : List Nat := s.results.map Prod.fst

/-- Structural partition invariant of a run: the bookkeeping lists are
duplicate-free and pairwise disjoint, every task index below
`tasks.length` is in exactly one of `pending`, `active` or the resolved
results, every short-circuited index is resolved, and every stored result
carries its own task's `rowId`/`columnId`. -/
structure PartInv (tasks : List ComputeTask) (s : RunState) : Prop where
  pnodup : s.pending.Nodup
  anodup : s.active.Nodup
  knodup : (resKeys s).Nodup
  pa : ∀ i ∈ s.pending, i ∉ s.active
  pk : ∀ i ∈ s.pending, i ∉ resKeys s
  ak : ∀ i ∈ s.active, i ∉ resKeys s
  pbound : ∀ i ∈ s.pending, i < tasks.length
  abound : ∀ i ∈ s.active, i < tasks.length
  kbound : ∀ i ∈ resKeys s, i < tasks.length
  cover : ∀ i < tasks.length, i ∈ s.pending ∨ i ∈ s.active ∨ i ∈ resKeys s
  cck : ∀ i ∈ s.ccs, i ∈ resKeys s
  rids : ∀ p ∈ s.results, ∃ t, tasks.get? p.1 = some t ∧
    p.2.rowId = t.rowId ∧ p.2.columnId = t.columnId

theorem partInv_init (tasks : List ComputeTask) (sheet : List Row) (p : ComputeProgress) :
    PartInv tasks (mkInitRun sheet p tasks.length) := by
  refine ⟨List.nodup_range _, List.nodup_nil, List.nodup_nil, ?_, ?_, ?_, ?_, ?_, ?_, ?_, ?_, ?_⟩
  · intro i _; simp [mkInitRun]
  · intro i _; simp [mkInitRun, resKeys]
  · intro i hi; simp [mkInitRun] at hi
  · intro i hi; simpa [mkInitRun] using hi
  · intro i hi; simp [mkInitRun] at hi
  · intro i hi; simp [mkInitRun, resKeys] at hi
  · intro i hi; exact Or.inl (by simpa [mkInitRun] using hi)
  · intro i hi; simp [mkInitRun] at hi
  · intro p hp; simp [mkInitRun] at hp

theorem partInv_step (tasks : List ComputeTask) (n : Nat) (apiKey : String)
    (s s' : RunState) (e : Ev) (hstep : runStep tasks n apiKey s e = some s')
    (hinv : PartInv tasks s) : PartInv tasks s' := by
  cases e with
  | abortSig =>
      have := runStep_abort_inv tasks n apiKey s s' hstep
      subst this
      exact ⟨hinv.pnodup, hinv.anodup, hinv.knodup, hinv.pa, hinv.pk, hinv.ak,
        hinv.pbound, hinv.abound, hinv.kbound, hinv.cover, hinv.cck, hinv.rids⟩
  | dispatch =>
      obtain ⟨i, rest, t, hp, _, _, hg, hs'⟩ := runStep_dispatch_inv tasks n apiKey s s' hstep
      subst hs'
      have hpn := hinv.pnodup
      rw [hp] at hpn
      have hirest : i ∉ rest := (List.nodup_cons.mp hpn).1
      have hrestnd : rest.Nodup := (List.nodup_cons.mp hpn).2
      have himem : i ∈ s.pending := by rw [hp]; exact List.mem_cons_self i rest
      have hrestmem : ∀ j ∈ rest, j ∈ s.pending := by
        intro j hj; rw [hp]; exact List.mem_cons_of_mem i hj
      refine ⟨hrestnd, ?_, hinv.knodup, ?_, ?_, ?_, ?_, ?_, hinv.kbound, ?_, hinv.cck, hinv.rids⟩
      · simp [List.nodup_append, hinv.anodup]
        exact fun hc => hinv.pa i himem hc
      · intro j hj
        simp only [List.mem_append, List.mem_singleton]
        rintro (hc | rfl)
        · exact hinv.pa j (hrestmem j hj) hc
        · exact hirest hj
      · intro j hj
        exact hinv.pk j (hrestmem j hj)
      · intro j hj
        simp only [List.mem_append, List.mem_singleton] at hj
        rcases hj with hj | rfl
        · exact hinv.ak j hj
        · exact hinv.pk j himem
      · intro j hj
        exact hinv.pbound j (hrestmem j hj)
      · intro j hj
        simp only [List.mem_append, List.mem_singleton] at hj
        rcases hj with hj | rfl
        · exact hinv.abound j hj
        · exact hinv.pbound j himem
      · intro j hjlt
        rcases hinv.cover j hjlt with hj | hj | hj
        · rw [hp] at hj
          rcases List.mem_cons.mp hj with rfl | hj
          · exact Or.inr (Or.inl (by simp))
          · exact Or.inl hj
        · exact Or.inr (Or.inl (by simp [hj]))
        · exact Or.inr (Or.inr hj)
  | shortCircuit =>
      obtain ⟨i, rest, t, hp, _, _, hg, hs'⟩ := runStep_shortCircuit_inv tasks n apiKey s s' hstep
      subst hs'
      have hpn := hinv.pnodup
      rw [hp] at hpn
      have hirest : i ∉ rest := (List.nodup_cons.mp hpn).1
      have hrestnd : rest.Nodup := (List.nodup_cons.mp hpn).2
      have himem : i ∈ s.pending := by rw [hp]; exact List.mem_cons_self i rest
      have hrestmem : ∀ j ∈ rest, j ∈ s.pending := by
        intro j hj; rw [hp]; exact List.mem_cons_of_mem i hj
      have hkeys : resKeys { s with
          pending := rest
          results := s.results ++ [(i, ⟨t.rowId, t.columnId, "", some "Batch cancelled"⟩)]
          ccs := s.ccs ++ [i] } = resKeys s ++ [i] := by
        simp [resKeys]
      refine ⟨hrestnd, hinv.anodup, ?_, ?_, ?_, ?_, ?_, hinv.abound, ?_, ?_, ?_, ?_⟩
      · rw [hkeys]
        simp [List.nodup_append, hinv.knodup]
        exact fun hc => hinv.pk i himem hc
      · intro j hj
        exact hinv.pa j (hrestmem j hj)
      · intro j hj
        rw [hkeys]
        simp only [List.mem_append, List.mem_singleton]
        rintro (hc | rfl)
        · exact hinv.pk j (hrestmem j hj) hc
        · exact hirest hj
      · intro j hj
        rw [hkeys]
        simp only [List.mem_append, List.mem_singleton]
        rintro (hc | rfl)
        · exact hinv.ak j hj hc
        · exact hinv.pa _ himem hj
      · intro j hj
        exact hinv.pbound j (hrestmem j hj)
      · intro j hj
        rw [hkeys] at hj
        simp only [List.mem_append, List.mem_singleton] at hj
        rcases hj with hj | rfl
        · exact hinv.kbound j hj
        · exact hinv.pbound j himem
      · intro j hjlt
        rw [hkeys]
        rcases hinv.cover j hjlt with hj | hj | hj
        · rw [hp] at hj
          rcases List.mem_cons.mp hj with rfl | hj
          · exact Or.inr (Or.inr (by simp))
          · exact Or.inl hj
        · exact Or.inr (Or.inl hj)
        · exact Or.inr (Or.inr (by simp [hj]))
      · intro j hj
        rw [hkeys]
        simp only [List.mem_append, List.mem_singleton] at hj ⊢
        rcases hj with hj | rfl
        · exact Or.inl (hinv.cck j hj)
        · exact Or.inr rfl
      · intro q hq
        simp only [List.mem_append, List.mem_singleton] at hq
        rcases hq with hq | rfl
        · exact hinv.rids q hq
        · exact ⟨t, hg, rfl, rfl⟩
  | finish i o =>
      obtain ⟨t, hmem, hg, hs'⟩ := runStep_finish_inv tasks n apiKey s s' i o hstep
      subst hs'
      have hkeys : resKeys { s with
          active := s.active.erase i
          results := s.results ++ [(i, getCompletion t apiKey o)]
          sheet := (onResultUpdate (getCompletion t apiKey o) s.sheet s.progress).1
          progress := (onResultUpdate (getCompletion t apiKey o) s.sheet s.progress).2
          resultCalls := s.resultCalls + 1 } = resKeys s ++ [i] := by
        simp [resKeys]
      have herasene : ∀ j ∈ s.active.erase i, j ∈ s.active ∧ j ≠ i := by
        intro j hj
        have hj' := (List.Nodup.mem_erase_iff hinv.anodup).mp hj
        exact ⟨hj'.2, hj'.1⟩
      refine ⟨hinv.pnodup, hinv.anodup.erase i, ?_, ?_, ?_, ?_, hinv.pbound, ?_, ?_, ?_, ?_, ?_⟩
      · rw [hkeys]
        simp [List.nodup_append, hinv.knodup]
        exact fun hc => hinv.ak i hmem hc
      · intro j hj hc
        exact hinv.pa j hj (List.mem_of_mem_erase hc)
      · intro j hj
        rw [hkeys]
        simp only [List.mem_append, List.mem_singleton]
        rintro (hc | rfl)
        · exact hinv.pk j hj hc
        · exact hinv.pa j hj hmem
      · intro j hj
        rw [hkeys]
        obtain ⟨hja, hjne⟩ := herasene j hj
        simp only [List.mem_append, List.mem_singleton]
        rintro (hc | rfl)
        · exact hinv.ak j hja hc
        · exact hjne rfl
      · intro j hj
        exact hinv.abound j (herasene j hj).1
      · intro j hj
        rw [hkeys] at hj
        simp only [List.mem_append, List.mem_singleton] at hj
        rcases hj with hj | rfl
        · exact hinv.kbound j hj
        · exact hinv.abound j hmem
      · intro j hjlt
        rw [hkeys]
        rcases hinv.cover j hjlt with hj | hj | hj
        · exact Or.inl hj
        · by_cases hji : j = i
          · subst hji
            exact Or.inr (Or.inr (by simp))
          · exact Or.inr (Or.inl ((List.Nodup.mem_erase_iff hinv.anodup).mpr ⟨hji, hj⟩))
        · exact Or.inr (Or.inr (by simp [hj]))
      · intro j hj
        rw [hkeys]
        simp only [List.mem_append, List.mem_singleton]
        exact Or.inl (hinv.cck j hj)
      · intro q hq
        simp only [List.mem_append, List.mem_singleton] at hq
        rcases hq with hq | rfl
        · exact hinv.rids q hq
        · exact ⟨t, hg, getCompletion_rowId t apiKey o, getCompletion_columnId t apiKey o⟩

theorem partInv_trace (tasks : List ComputeTask) (n : Nat) (apiKey : String)
    (evs : List Ev) (s0 s : RunState)
    (htr : runTrace tasks n apiKey s0 evs = some s)
    (hinv : PartInv tasks s0) : PartInv tasks s := by
  induction evs generalizing s0 with
  | nil =>
      simp [runTrace] at htr
      subst htr
      exact hinv
  | cons e evs ih =>
      simp only [runTrace] at htr
      cases hstep : runStep tasks n apiKey s0 e with
      | none => rw [hstep] at htr; simp at htr
      | some s1 =>
          rw [hstep] at htr
          exact ih s1 htr (partInv_step tasks n apiKey s0 s1 e hstep hinv)

/-- Claim C8. The scheduler batchCompletions resolves to exactly one result per task,
positionally aligned: in a completed run the results hold one entry for
every task index (same length as the task list), and the entry at index
`i` carries the `rowId` and `columnId` of task `i` (every `getCompletion`
branch and the cancel short-circuit copy the task's own ids), regardless
of the order in which tasks completed — the index keys of the model are
Promise.all's positional slots. -/
theorem C8_results_aligned (tasks : List ComputeTask) (n : Nat) (apiKey : String)
    (sheet0 : List Row) (p0 : ComputeProgress) (evs : List Ev) (s : RunState)
    (htr : runTrace tasks n apiKey (mkInitRun sheet0 p0 tasks.length) evs = some s)
    (hpend : s.pending = []) (hact : s.active = []) :
    s.results.length = tasks.length ∧
    ∀ i t, tasks.get? i = some t → ∃ r, (i, r) ∈ s.results ∧
      r.rowId = t.rowId ∧ r.columnId = t.columnId := by
  have hp := partInv_trace tasks n apiKey evs _ s htr (partInv_init tasks sheet0 p0)
  constructor
  · have hperm : (resKeys s).Perm (List.range tasks.length) := by
      refine (List.perm_ext_iff_of_nodup hp.knodup (List.nodup_range _)).mpr ?_
      intro a
      constructor
      · intro ha
        exact List.mem_range.mpr (hp.kbound a ha)
      · intro ha
        rcases hp.cover a (List.mem_range.mp ha) with h | h | h
        · rw [hpend] at h; simp at h
        · rw [hact] at h; simp at h
        · exact h
    have hlen := hperm.length_eq
    simpa [resKeys, List.length_range] using hlen
  · intro i t hget
    have hlt : i < tasks.length := by
      by_contra hc
      push_neg at hc
      rw [List.get?_eq_none.mpr hc] at hget
      exact Option.noConfusion hget
    rcases hp.cover i hlt with h | h | h
    · rw [hpend] at h; simp at h
    · rw [hact] at h; simp at h
    · obtain ⟨q, hq, hq1⟩ := List.mem_map.mp h
      obtain ⟨t', hget', hr1, hr2⟩ := hp.rids q hq
      rw [hq1] at hget'
      have ht' : t' = t := by
        rw [hget] at hget'
        exact (Option.some.inj hget').symm
      subst ht'
      refine ⟨q.2, ?_, hr1, hr2⟩
      have hqe : (i, q.2) = q := by
        rw [← hq1]
      rw [hqe]
      exact hq

/-- Final state of the C8 witness run: two tasks, each dispatched and
finished. -/
def exRunC8 : RunState :=
  (runTrace [exTaskA, exTaskB] 1 "k" (mkInitRun exRowsA ⟨2, 2, 0, 0, 0⟩ 2)
    [Ev.dispatch, Ev.finish 0 (NetOutcome.ok (some "a")),
      Ev.dispatch, Ev.finish 1 (NetOutcome.ok (some "b"))]).getD runDflt

/-- Witness for C8 on a concrete completed run. -/
theorem C8_witness :
    exRunC8.results.length = ([exTaskA, exTaskB] : List ComputeTask).length :=
  (C8_results_aligned [exTaskA, exTaskB] 1 "k" exRowsA ⟨2, 2, 0, 0, 0⟩
    [Ev.dispatch, Ev.finish 0 (NetOutcome.ok (some "a")),
      Ev.dispatch, Ev.finish 1 (NetOutcome.ok (some "b"))] exRunC8
    rfl (by decide) (by decide)).1

theorem metaOf_isSome_mem (rows : List Row) (rid cid : String) (m : CellMeta)
    (h : metaOf rows rid cid = some m) : ∃ r ∈ rows, r.id = rid := by
  induction rows with
  | nil => simp [metaOf] at h
  | cons hd t ih =>
      by_cases hh : hd.id = rid
      · exact ⟨hd, List.mem_cons_self hd t, hh⟩
      · simp only [metaOf, hh, if_false] at h
        obtain ⟨r, hr, hid⟩ := ih h
        exact ⟨r, List.mem_cons_of_mem hd hr, hid⟩

theorem tasks_rowId_ne (tasks : List ComputeTask)
    (hdist : (tasks.map ComputeTask.rowId).Nodup) (i j : Nat) (ti tj : ComputeTask)
    (hi : tasks.get? i = some ti) (hj : tasks.get? j = some tj) (hne : i ≠ j) :
    ti.rowId ≠ tj.rowId := by
  intro hc
  have hilt : i < tasks.length := by
    by_contra hcc
    push_neg at hcc
    rw [List.get?_eq_none.mpr hcc] at hi
    exact Option.noConfusion hi
  have hmi : (tasks.map ComputeTask.rowId).get? i = some ti.rowId := by
    rw [List.get?_map, hi]
    rfl
  have hmj : (tasks.map ComputeTask.rowId).get? j = some tj.rowId := by
    rw [List.get?_map, hj]
    rfl
  have : i = j := by
    apply List.get?_inj (by simpa using hilt) hdist
    rw [hmi, hmj, hc]
  exact hne this

theorem onStartUpdate_metaOf_self (t : ComputeTask) (sheet : List Row) (p : ComputeProgress)
    (hmem : ∃ r ∈ sheet, r.id = t.rowId) :
    metaOf (onStartUpdate t sheet p).1 t.rowId t.columnId =
      some ⟨CellState.running, none⟩ :=
  metaOf_updateCellStateRows_self _ _ _ _ _ hmem

theorem onStartUpdate_metaOf_ne (t : ComputeTask) (sheet : List Row) (p : ComputeProgress)
    (rid cid : String) (h : rid ≠ t.rowId) :
    metaOf (onStartUpdate t sheet p).1 rid cid = metaOf sheet rid cid :=
  metaOf_updateCellStateRows_ne _ _ _ _ _ _ _ h

theorem onResultUpdate_metaOf_self (r : ComputeResult) (sheet : List Row)
    (p : ComputeProgress) (hmem : ∃ row ∈ sheet, row.id = r.rowId) :
    metaOf (onResultUpdate r sheet p).1 r.rowId r.columnId = some (metaForResult r) := by
  unfold onResultUpdate metaForResult
  by_cases h : errTruthy r
  · simp only [h, if_true]
    exact metaOf_updateCellStateRows_self _ _ _ _ _ hmem
  · simp only [h, if_false, Bool.false_eq_true]
    apply metaOf_updateCellStateRows_self
    refine (exists_id_of_map _ _).mpr ?_
    rw [updateCellRows_map_id]
    exact (exists_id_of_map _ _).mp hmem

theorem onResultUpdate_metaOf_ne (r : ComputeResult) (sheet : List Row)
    (p : ComputeProgress) (rid cid : String) (h : rid ≠ r.rowId) :
    metaOf (onResultUpdate r sheet p).1 rid cid = metaOf sheet rid cid := by
  unfold onResultUpdate
  by_cases herr : errTruthy r
  · simp only [herr, if_true]
    exact metaOf_updateCellStateRows_ne _ _ _ _ _ _ _ h
  · simp only [herr, if_false, Bool.false_eq_true]
    rw [metaOf_updateCellStateRows_ne _ _ _ _ _ _ _ h, metaOf_updateCellRows]

/-- Per-cell invariant of a run (for pairwise-distinct task rows): cells
of pending tasks still hold their initial `queued` meta, in-flight cells
hold `running`, short-circuited cells still hold `queued` (their
callbacks were skipped), and every other resolved cell holds exactly the
meta its result produced through `onResult`. -/
structure CellInv (tasks : List ComputeTask) (s : RunState) : Prop where
  cellP : ∀ i t, tasks.get? i = some t → i ∈ s.pending →
    metaOf s.sheet t.rowId t.columnId = some ⟨CellState.queued, none⟩
  cellA : ∀ i t, tasks.get? i = some t → i ∈ s.active →
    metaOf s.sheet t.rowId t.columnId = some ⟨CellState.running, none⟩
  cellC : ∀ i t, tasks.get? i = some t → i ∈ s.ccs →
    metaOf s.sheet t.rowId t.columnId = some ⟨CellState.queued, none⟩
  cellR : ∀ i t r, tasks.get? i = some t → (i, r) ∈ s.results → i ∉ s.ccs →
    metaOf s.sheet t.rowId t.columnId = some (metaForResult r)

theorem cellInv_init (tasks : List ComputeTask) (sheet : List Row) (p : ComputeProgress)
    (hinit : ∀ t ∈ tasks, metaOf sheet t.rowId t.columnId = some ⟨CellState.queued, none⟩) :
    CellInv tasks (mkInitRun sheet p tasks.length) := by
  refine ⟨?_, ?_, ?_, ?_⟩
  · intro i t hget _
    exact hinit t (List.get?_mem hget)
  · intro i t _ hmem
    simp [mkInitRun] at hmem
  · intro i t _ hmem
    simp [mkInitRun] at hmem
  · intro i t r _ hmem _
    simp [mkInitRun] at hmem

theorem cellInv_step (tasks : List ComputeTask) (n : Nat) (apiKey : String)
    (s s' : RunState) (e : Ev)
    (hdist : (tasks.map ComputeTask.rowId).Nodup)
    (hstep : runStep tasks n apiKey s e = some s')
    (hpart : PartInv tasks s) (hinv : CellInv tasks s) : CellInv tasks s' := by
  cases e with
  | abortSig =>
      have := runStep_abort_inv tasks n apiKey s s' hstep
      subst this
      exact ⟨hinv.cellP, hinv.cellA, hinv.cellC, hinv.cellR⟩
  | dispatch =>
      obtain ⟨i, rest, t, hp, _, _, hg, hs'⟩ := runStep_dispatch_inv tasks n apiKey s s' hstep
      subst hs'
      have himem : i ∈ s.pending := by rw [hp]; exact List.mem_cons_self i rest
      have hirest : i ∉ rest := by
        have := hpart.pnodup
        rw [hp] at this
        exact (List.nodup_cons.mp this).1
      have hne_of_rest : ∀ j, j ∈ rest → j ≠ i := fun j hj hc => hirest (hc ▸ hj)
      refine ⟨?_, ?_, ?_, ?_⟩
      · intro j tj hgj hj
        have hjne : j ≠ i := hne_of_rest j hj
        have hrowne : tj.rowId ≠ t.rowId := tasks_rowId_ne tasks hdist j i tj t hgj hg hjne
        rw [onStartUpdate_metaOf_ne t s.sheet s.progress _ _ hrowne]
        exact hinv.cellP j tj hgj (by rw [hp]; exact List.mem_cons_of_mem i hj)
      · intro j tj hgj hj
        simp only [List.mem_append, List.mem_singleton] at hj
        rcases hj with hj | rfl
        · have hjne : j ≠ i := fun hc => hpart.pa i himem (hc ▸ hj)
          have hrowne : tj.rowId ≠ t.rowId := tasks_rowId_ne tasks hdist j i tj t hgj hg hjne
          rw [onStartUpdate_metaOf_ne t s.sheet s.progress _ _ hrowne]
          exact hinv.cellA j tj hgj hj
        · have ht : tj = t := by
            rw [hgj] at hg
            exact Option.some.inj hg
          subst ht
          exact onStartUpdate_metaOf_self tj s.sheet s.progress
            (metaOf_isSome_mem s.sheet tj.rowId tj.columnId _ (hinv.cellP j tj hgj himem))
      · intro j tj hgj hj
        have hjk : j ∈ resKeys s := hpart.cck j hj
        have hjne : j ≠ i := fun hc => hpart.pk i himem (hc ▸ hjk)
        have hrowne : tj.rowId ≠ t.rowId := tasks_rowId_ne tasks hdist j i tj t hgj hg hjne
        rw [onStartUpdate_metaOf_ne t s.sheet s.progress _ _ hrowne]
        exact hinv.cellC j tj hgj hj
      · intro j tj r hgj hjr hjcc
        have hjk : j ∈ resKeys s := List.mem_map.mpr ⟨(j, r), hjr, rfl⟩
        have hjne : j ≠ i := fun hc => hpart.pk i himem (hc ▸ hjk)
        have hrowne : tj.rowId ≠ t.rowId := tasks_rowId_ne tasks hdist j i tj t hgj hg hjne
        rw [onStartUpdate_metaOf_ne t s.sheet s.progress _ _ hrowne]
        exact hinv.cellR j tj r hgj hjr hjcc
  | shortCircuit =>
      obtain ⟨i, rest, t, hp, _, _, hg, hs'⟩ := runStep_shortCircuit_inv tasks n apiKey s s' hstep
      subst hs'
      have himem : i ∈ s.pending := by rw [hp]; exact List.mem_cons_self i rest
      refine ⟨?_, ?_, ?_, ?_⟩
      · intro j tj hgj hj
        exact hinv.cellP j tj hgj (by rw [hp]; exact List.mem_cons_of_mem i hj)
      · intro j tj hgj hj
        exact hinv.cellA j tj hgj hj
      · intro j tj hgj hj
        simp only [List.mem_append, List.mem_singleton] at hj
        rcases hj with hj | rfl
        · exact hinv.cellC j tj hgj hj
        · have ht : tj = t := by
            rw [hgj] at hg
            exact Option.some.inj hg
          subst ht
          exact hinv.cellP j tj hgj himem
      · intro j tj r hgj hjr hjcc
        simp only [List.mem_append, List.mem_singleton] at hjr hjcc
        push_neg at hjcc
        rcases hjr with hjr | hjr
        · exact hinv.cellR j tj r hgj hjr hjcc.1
        · exfalso
          have : j = i := congrArg Prod.fst hjr
          exact hjcc.2 this
  | finish i o =>
      obtain ⟨t, hmem, hg, hs'⟩ := runStep_finish_inv tasks n apiKey s s' i o hstep
      subst hs'
      have hrid : (getCompletion t apiKey o).rowId = t.rowId := getCompletion_rowId t apiKey o
      have hcid : (getCompletion t apiKey o).columnId = t.columnId :=
        getCompletion_columnId t apiKey o
      refine ⟨?_, ?_, ?_, ?_⟩
      · intro j tj hgj hj
        have hjne : j ≠ i := fun hc => hpart.pa j hj (hc ▸ hmem)
        have hrowne : tj.rowId ≠ t.rowId := tasks_rowId_ne tasks hdist j i tj t hgj hg hjne
        rw [onResultUpdate_metaOf_ne _ s.sheet s.progress _ _ (by rw [hrid]; exact hrowne)]
        exact hinv.cellP j tj hgj hj
      · intro j tj hgj hj
        have hj' := (List.Nodup.mem_erase_iff hpart.anodup).mp hj
        have hjne : j ≠ i := hj'.1
        have hrowne : tj.rowId ≠ t.rowId := tasks_rowId_ne tasks hdist j i tj t hgj hg hjne
        rw [onResultUpdate_metaOf_ne _ s.sheet s.progress _ _ (by rw [hrid]; exact hrowne)]
        exact hinv.cellA j tj hgj hj'.2
      · intro j tj hgj hj
        have hjk : j ∈ resKeys s := hpart.cck j hj
        have hjne : j ≠ i := fun hc => hpart.ak i hmem (hc ▸ hjk)
        have hrowne : tj.rowId ≠ t.rowId := tasks_rowId_ne tasks hdist j i tj t hgj hg hjne
        rw [onResultUpdate_metaOf_ne _ s.sheet s.progress _ _ (by rw [hrid]; exact hrowne)]
        exact hinv.cellC j tj hgj hj
      · intro j tj r hgj hjr hjcc
        simp only [List.mem_append, List.mem_singleton] at hjr
        rcases hjr with hjr | hjr
        · have hjk : j ∈ resKeys s := List.mem_map.mpr ⟨(j, r), hjr, rfl⟩
          have hjne : j ≠ i := fun hc => hpart.ak i hmem (hc ▸ hjk)
          have hrowne : tj.rowId ≠ t.rowId := tasks_rowId_ne tasks hdist j i tj t hgj hg hjne
          rw [onResultUpdate_metaOf_ne _ s.sheet s.progress _ _ (by rw [hrid]; exact hrowne)]
          exact hinv.cellR j tj r hgj hjr hjcc
        · have hji : j = i := congrArg Prod.fst hjr
          have hrr : r = getCompletion t apiKey o := congrArg Prod.snd hjr
          subst hji
          subst hrr
          have ht : tj = t := by
            rw [hgj] at hg
            exact Option.some.inj hg
          subst ht
          have hm : ∃ row ∈ s.sheet, row.id = (getCompletion tj apiKey o).rowId := by
            rw [hrid]
            exact metaOf_isSome_mem s.sheet tj.rowId tj.columnId _
              (hinv.cellA j tj hgj hmem)
          have := onResultUpdate_metaOf_self (getCompletion tj apiKey o) s.sheet s.progress hm
          rw [hrid, hcid] at this
          exact this

theorem cellInv_trace (tasks : List ComputeTask) (n : Nat) (apiKey : String)
    (hdist : (tasks.map ComputeTask.rowId).Nodup)
    (evs : List Ev) (s0 s : RunState)
    (htr : runTrace tasks n apiKey s0 evs = some s)
    (hp0 : PartInv tasks s0) (hc0 : CellInv tasks s0) : CellInv tasks s := by
  induction evs generalizing s0 with
  | nil =>
      simp [runTrace] at htr
      subst htr
      exact hc0
  | cons e evs ih =>
      simp only [runTrace] at htr
      cases hstep : runStep tasks n apiKey s0 e with
      | none => rw [hstep] at htr; simp at htr
      | some s1 =>
          rw [hstep] at htr
          exact ih s1 htr (partInv_step tasks n apiKey s0 s1 e hstep hp0)
            (cellInv_step tasks n apiKey s0 s1 e hdist hstep hp0 hc0)

/-- Claim C1, amended. After a compute run is stopped via cancellation (as
in any completed run): a cell whose task was never dispatched — the
cancel signal was set first, so the limiter short-circuited it — is left
untouched in its prior state `queued`, because the short-circuit return
skips the `onResult` callback entirely; but a cell whose task was already
dispatched (`running` at the moment of cancellation) ends the run in the
state its result produced through `onResult`: `error` with the stored
message (`Request cancelled` for an aborted request) or `done` if the
response had already arrived — not `queued`. `stopCompute` itself
rewrites no cell state (the `abortSig` step leaves the sheet unchanged),
so no path moves a `running` cell back to `queued`. -/
theorem C1_cancellation_states (tasks : List ComputeTask) (n : Nat) (apiKey : String)
    (sheet0 : List Row) (p0 : ComputeProgress) (evs : List Ev) (s : RunState)
    (hdist : (tasks.map ComputeTask.rowId).Nodup)
    (hinit : ∀ t ∈ tasks, metaOf sheet0 t.rowId t.columnId = some ⟨CellState.queued, none⟩)
    (_habort : Ev.abortSig ∈ evs)
    (htr : runTrace tasks n apiKey (mkInitRun sheet0 p0 tasks.length) evs = some s)
    (hpend : s.pending = []) (hact : s.active = []) :
    ∀ i t, tasks.get? i = some t →
      (i ∈ s.ccs → metaOf s.sheet t.rowId t.columnId = some ⟨CellState.queued, none⟩) ∧
      (i ∉ s.ccs → ∃ r, (i, r) ∈ s.results ∧
        metaOf s.sheet t.rowId t.columnId = some (metaForResult r)) := by
  have hpart := partInv_trace tasks n apiKey evs _ s htr (partInv_init tasks sheet0 p0)
  have hcell := cellInv_trace tasks n apiKey hdist evs _ s htr
    (partInv_init tasks sheet0 p0) (cellInv_init tasks sheet0 p0 hinit)
  intro i t hget
  constructor
  · exact hcell.cellC i t hget
  · intro hnotcc
    have hlt : i < tasks.length := by
      by_contra hc
      push_neg at hc
      rw [List.get?_eq_none.mpr hc] at hget
      exact Option.noConfusion hget
    rcases hpart.cover i hlt with h | h | h
    · rw [hpend] at h
      simp at h
    · rw [hact] at h
      simp at h
    · obtain ⟨q, hq, hq1⟩ := List.mem_map.mp h
      refine ⟨q.2, ?_, ?_⟩
      · have hqe : (i, q.2) = q := by rw [← hq1]
        rw [hqe]
        exact hq
      · apply hcell.cellR i t q.2 hget _ hnotcc
        have hqe : (i, q.2) = q := by rw [← hq1]
        rw [hqe]
        exact hq

/-- Fixture rows for the C1 trace: both cells start `queued`. -/
def exRowsAB : List Row :=
  [⟨"r0", [], [("c", ⟨CellState.queued, none⟩)]⟩,
    ⟨"r1", [], [("c", ⟨CellState.queued, none⟩)]⟩]

/-- C1 trace prefix state: task 0 dispatched, then the run is stopped. -/
def exRunC1mid : RunState :=
  (runTrace [exTaskA, exTaskB] 1 "k" (mkInitRun exRowsAB ⟨2, 2, 0, 0, 0⟩ 2)
    [Ev.dispatch, Ev.abortSig]).getD runDflt

/-- C1 full-trace final state: the in-flight request aborts with
`Request cancelled`, the still-queued task short-circuits. -/
def exRunC1 : RunState :=
  (runTrace [exTaskA, exTaskB] 1 "k" (mkInitRun exRowsAB ⟨2, 2, 0, 0, 0⟩ 2)
    [Ev.dispatch, Ev.abortSig, Ev.finish 0 NetOutcome.abortedReq,
      Ev.shortCircuit]).getD runDflt

/-- Claim C1, counterexample. A run of two tasks with concurrency 1 is
stopped while task 0 is in flight: at the moment of cancellation cell
`r0` is `running`; after the run unwinds, cell `r0` ends in state `error`
(message `Request cancelled`), not `queued` as the claim demands (cell
`r1`, never dispatched, does stay `queued`). -/
theorem C1_counterexample :
    runTrace [exTaskA, exTaskB] 1 "k" (mkInitRun exRowsAB ⟨2, 2, 0, 0, 0⟩ 2)
        [Ev.dispatch, Ev.abortSig] = some exRunC1mid ∧
      exRunC1mid.aborted = true ∧
      metaOf exRunC1mid.sheet "r0" "c" = some ⟨CellState.running, none⟩ ∧
      runTrace [exTaskA, exTaskB] 1 "k" (mkInitRun exRowsAB ⟨2, 2, 0, 0, 0⟩ 2)
        [Ev.dispatch, Ev.abortSig, Ev.finish 0 NetOutcome.abortedReq,
          Ev.shortCircuit] = some exRunC1 ∧
      exRunC1.pending = [] ∧ exRunC1.active = [] ∧
      metaOf exRunC1.sheet "r0" "c" = some ⟨CellState.error, some "Request cancelled"⟩ ∧
      some (⟨CellState.error, some "Request cancelled"⟩ : CellMeta) ≠
        some (⟨CellState.queued, none⟩ : CellMeta) := by
  refine ⟨rfl, by decide, by decide, rfl, by decide, by decide, by decide, by decide⟩

/-- Witness for the amended C1: the never-dispatched task's cell stays
`queued` after the cancelled run completes. -/
theorem C1_witness :
    metaOf exRunC1.sheet "r1" "c" = some ⟨CellState.queued, none⟩ :=
  (C1_cancellation_states [exTaskA, exTaskB] 1 "k" exRowsAB ⟨2, 2, 0, 0, 0⟩
    [Ev.dispatch, Ev.abortSig, Ev.finish 0 NetOutcome.abortedReq, Ev.shortCircuit]
    exRunC1 (by decide) (by decide) (by decide) rfl (by decide) (by decide)
    1 exTaskB rfl).1 (by decide)

end AISheet
